import Mathlib

/-!
# tree_light: per-pixel colour state of an addressable LED strip (`led.h`)

A shallow embedding of `led.h`.

* `LED*` together with its element count is a `List LED`; the statement pair
  `led = &leds[i]; f(led)` is `modifyAt leds i f`, which has no result when `i` is past the end of
  the allocation (the C program has undefined behaviour there).
* `for (int i = 0; i < n; i++)` is `forLoop n body`.
* `float` is IEEE-754 binary32 with round-to-nearest-even (`F32`).
* `uint8_t` and `uint16_t` are `Fin 256` and `Fin 65536`; the one narrowing store of the program,
  `led->id = i`, is written with its explicit `% 65536`.
* The strip driver (`Adafruit_NeoPixel`) is the log of the calls it has received.
-/

namespace TreeLight

/-! ## Machine types -/

/-- C `uint8_t`. -/
abbrev uint8_t := Fin 256

/-- C `uint16_t`. -/
abbrev uint16_t := Fin 65536

/-- C `uint32_t`, the type of a packed colour. -/
abbrev uint32_t := Fin 4294967296

/-- C `float`: an IEEE-754 binary32 datum. A finite datum carries the rational number it denotes
(the two zeros are not told apart); the arithmetic below only ever produces binary32 values. -/
inductive F32 where
  | nan : F32
  | inf (neg : Bool) : F32
  | fin (q : ℚ) : F32
  deriving DecidableEq

namespace F32

/-- Search downwards from `2 ^ (k - 126)` for the largest power of two that is at most `a`;
`-126` (the exponent of the subnormal range) when there is none. -/
def expoAux (a : ℚ) : Nat → ℤ
  | 0 => -126
  | k + 1 => if (2 : ℚ) ^ ((k : ℤ) - 125) ≤ a then (k : ℤ) - 125 else expoAux a k

/-- Binary exponent of the binade holding `a ≥ 0`, kept within `-126 .. 127`. -/
def expo (a : ℚ) : ℤ := expoAux a 253

/-- Nearest integer, ties to the even one. -/
def rne (x : ℚ) : ℤ :=
  if x - ⌊x⌋ < 1 / 2 then ⌊x⌋
  else if 1 / 2 < x - ⌊x⌋ then ⌊x⌋ + 1
  else if ⌊x⌋ % 2 = 0 then ⌊x⌋ else ⌊x⌋ + 1

/-- Spacing of the binary32 values around `q` (24 significant bits). -/
def ulp (q : ℚ) : ℚ := 2 ^ (expo |q| - 23)

/-- The multiple of `ulp q` nearest to `q`, ties to the even multiple. -/
def nearest (q : ℚ) : ℚ := (rne (q / ulp q) : ℚ) * ulp q

/-- Round an exact result to binary32, round-to-nearest-even, overflowing to an infinity. -/
def rnd (q : ℚ) : F32 :=
  if 2 ^ 128 ≤ |nearest q| then inf (decide (q < 0)) else fin (nearest q)

/-- The data that are binary32 values: every NaN and infinity, and the finite numbers that
rounding leaves alone. -/
def IsBinary32 : F32 → Prop
  | fin q => rnd q = fin q
  | _ => True

instance : DecidablePred IsBinary32 := fun x =>
  match x with
  | nan => isTrue trivial
  | inf _ => isTrue trivial
  | fin q => inferInstanceAs (Decidable (rnd q = fin q))

/-- A float literal such as `0.0f`, `1.0f`, and the conversion of an `int` such as `255`. -/
def lit (q : ℚ) : F32 := rnd q

/-- Unary minus. -/
def neg : F32 → F32
  | nan => nan
  | inf n => inf (!n)
  | fin q => fin (-q)

/-- Binary32 `+`. -/
def add : F32 → F32 → F32
  | nan, _ => nan
  | _, nan => nan
  | inf n, inf m => if n = m then inf n else nan
  | inf n, fin _ => inf n
  | fin _, inf m => inf m
  | fin a, fin b => rnd (a + b)

/-- Binary32 `-`. -/
def sub (a b : F32) : F32 := add a (neg b)

/-- Binary32 `*`. -/
def mul : F32 → F32 → F32
  | nan, _ => nan
  | _, nan => nan
  | inf n, inf m => inf (n != m)
  | inf n, fin b => if b = 0 then nan else inf (n != decide (b < 0))
  | fin a, inf m => if a = 0 then nan else inf (decide (a < 0) != m)
  | fin a, fin b => rnd (a * b)

/-- Binary32 `<`; false as soon as one side is a NaN. -/
def lt : F32 → F32 → Bool
  | nan, _ => false
  | _, nan => false
  | inf n, inf m => n && !m
  | inf n, fin _ => n
  | fin _, inf m => !m
  | fin a, fin b => decide (a < b)

/-- Binary32 `<=`; false as soon as one side is a NaN. -/
def le : F32 → F32 → Bool
  | nan, _ => false
  | _, nan => false
  | inf n, inf m => n || !m
  | inf n, fin _ => n
  | fin _, inf m => !m
  | fin a, fin b => decide (a ≤ b)

/-- Binary32 `==`; false as soon as one side is a NaN. -/
def eq : F32 → F32 → Bool
  | fin a, fin b => decide (a = b)
  | inf n, inf m => n == m
  | _, _ => false

/-- The C library's `floor` on binary32 data. -/
def floor : F32 → F32
  | fin q => fin (⌊q⌋ : ℤ)
  | x => x

/-- Integer value of `floor x`; C gives no meaning to the conversion of a NaN or an infinity,
for which the result here is `0`. -/
def floorInt : F32 → ℤ
  | fin q => ⌊q⌋
  | _ => 0

/-- Implicit conversion of a `float` argument to a `uint8_t` parameter: the fraction is dropped.
C gives no meaning to the conversion when the integer part is outside `0 .. 255` or the datum is
not finite; here the integer part is then reduced modulo 256, respectively taken to be `0`. -/
def toUInt8 : F32 → uint8_t
  | fin q => ⟨((if 0 ≤ q then ⌊q⌋ else ⌈q⌉) % 256).toNat, by omega⟩
  | _ => 0

instance : LT F32 := ⟨fun a b => lt a b = true⟩

instance : LE F32 := ⟨fun a b => le a b = true⟩

instance (a b : F32) : Decidable (a < b) := inferInstanceAs (Decidable (lt a b = true))

instance (a b : F32) : Decidable (a ≤ b) := inferInstanceAs (Decidable (le a b = true))

end F32

/-! ## `struct LED` and the pixel array -/

/-- The record `struct LED`. -/
structure LED where
  id : uint16_t
  hue : F32
  saturation : F32
  value : F32
  red : uint8_t
  green : uint8_t
  blue : uint8_t
  deriving DecidableEq

/-- The loop body shape `led = &leds[i]; f(led);`. -/
def modifyAt (leds : List LED) (i : Nat) (f : LED → LED) : Option (List LED) :=
  match leds[i]? with
  | none => none
  | some led => some (leds.set i (f led))

/-- Run `body i` for `i = start, start + 1, ..., start + count - 1`. -/
def forRange {σ : Type} (body : Nat → σ → Option σ) : Nat → Nat → σ → Option σ
  | _, 0, s => some s
  | start, count + 1, s => (body start s).bind (forRange body (start + 1) count)

/-- The loop `for (int i = 0; i < n; i++) body`; it does not run when `n ≤ 0`. -/
def forLoop {σ : Type} (n : Int) (body : Nat → σ → Option σ) (s : σ) : Option σ :=
  forRange body 0 n.toNat s

/-- `InitLEDs`: `mem` is the content `malloc` hands over (cell `i` holds `mem i`, uninitialised);
the allocation is taken to succeed. -/
def InitLEDs (mem : Nat → LED) (n : Int) : Option (List LED) :=
  forLoop n (fun i leds => modifyAt leds i fun led =>
    { led with
      id := ⟨i % 65536, Nat.mod_lt i (by decide)⟩
      hue := F32.lit 0
      saturation := F32.lit 1
      value := F32.lit 1
      red := 255
      blue := 0
      green := 0 }) ((List.range n.toNat).map mem)

/-- `SetHue`. -/
def SetHue (led : LED) (hue : F32) : LED :=
  { led with hue := hue }

/-- `SetSaturation`. -/
def SetSaturation (led : LED) (saturation : F32) : LED :=
  { led with saturation := saturation }

/-- `SetHSV`. -/
def SetHSV (led : LED) (hue saturation value : F32) : LED :=
  { led with hue := hue, saturation := saturation, value := value }

/-- `SetRGB`. -/
def SetRGB (led : LED) (red green blue : uint8_t) : LED :=
  { led with red := red, green := green, blue := blue }

/-- `SetHSVToAll`. -/
def SetHSVToAll (leds : List LED) (hue saturation value : F32) (n : Int) : Option (List LED) :=
  forLoop n (fun i leds => modifyAt leds i fun led => SetHSV led hue saturation value) leds

/-- `SetRGBToAll`. -/
def SetRGBToAll (leds : List LED) (red green blue : uint8_t) (n : Int) : Option (List LED) :=
  forLoop n (fun i leds => modifyAt leds i fun led => SetRGB led red green blue) leds

/-- `UpdateColorWheelHSV`. -/
def UpdateColorWheelHSV (led : LED) (step : F32) : LED :=
  let hue := led.hue
  let hue := F32.add hue step
  let hue := if F32.lit 1 < hue then F32.sub hue (F32.lit 1) else hue
  { led with hue := hue }

/-! ## Colour model conversion (`hsv_rgb.h`) -/

/-- Modelled from the spec: `hsv2rgb` of `hsv_rgb.h`, which is not part of the sources at hand.
Section 4.2 of the specification, step by step, every operation being the binary32 one:
saturation `0` gives `(value, value, value)`; otherwise `sector = floor(hue*6) mod 6`,
`fractional = hue*6 − floor(hue*6)`, `p = value*(1−saturation)`,
`q = value*(1−saturation*fractional)`, `t = value*(1−saturation*(1−fractional))`, and the triple
is picked by the six-row sector table. -/
def hsv2rgb (hue saturation value : F32) : F32 × F32 × F32 :=
  if F32.eq saturation (F32.lit 0) then (value, value, value)
  else
    let h6 := F32.mul hue (F32.lit 6)
    let sector := (F32.floorInt h6 % 6).toNat
    let fractional := F32.sub h6 (F32.floor h6)
    let p := F32.mul value (F32.sub (F32.lit 1) saturation)
    let q := F32.mul value (F32.sub (F32.lit 1) (F32.mul saturation fractional))
    let t := F32.mul value
      (F32.sub (F32.lit 1) (F32.mul saturation (F32.sub (F32.lit 1) fractional)))
    match sector with
    | 0 => (value, t, p)
    | 1 => (q, value, p)
    | 2 => (p, value, t)
    | 3 => (p, q, value)
    | 4 => (t, p, value)
    | _ => (value, p, q)

/-! ## The strip driver and the two update routines -/

/-- A call received by the strip driver. -/
inductive DriverCall where
  | setPixelColor (n : uint16_t) (c : uint32_t)
  | show_
  deriving DecidableEq

/-- The strip driver `Adafruit_NeoPixel` as `led.h` sees it: `Color` is the library's packing of
three 8-bit channels into a colour word (its code is not part of this repository, so it is left
arbitrary), `calls` is the sequence of calls received so far, oldest first. -/
structure Adafruit_NeoPixel where
  Color : uint8_t → uint8_t → uint8_t → uint32_t
  calls : List DriverCall

/-- `strip->setPixelColor(n, c)`. -/
def Adafruit_NeoPixel.setPixelColor (strip : Adafruit_NeoPixel) (n : uint16_t) (c : uint32_t) :
    Adafruit_NeoPixel :=
  { strip with calls := strip.calls ++ [DriverCall.setPixelColor n c] }

/-- `strip->show()`. -/
def Adafruit_NeoPixel.show_ (strip : Adafruit_NeoPixel) : Adafruit_NeoPixel :=
  { strip with calls := strip.calls ++ [DriverCall.show_] }

/-- `UpdateLEDsHSV`. The scratch buffer `rgb` is the triple returned by `hsv2rgb`; reading
`leds[i]` past the end of the allocation has no result. -/
def UpdateLEDsHSV (strip : Adafruit_NeoPixel) (leds : List LED) (n : Int) :
    Option Adafruit_NeoPixel :=
  (forLoop n (fun i strip =>
    (leds[i]?).map fun led =>
      let rgb := hsv2rgb led.hue led.saturation led.value
      strip.setPixelColor led.id
        (strip.Color (F32.toUInt8 (F32.mul rgb.1 (F32.lit 255)))
          (F32.toUInt8 (F32.mul rgb.2.1 (F32.lit 255)))
          (F32.toUInt8 (F32.mul rgb.2.2 (F32.lit 255))))) strip).map
    Adafruit_NeoPixel.show_

/-- `UpdateLEDsRGB`. -/
def UpdateLEDsRGB (strip : Adafruit_NeoPixel) (leds : List LED) (n : Int) :
    Option Adafruit_NeoPixel :=
  (forLoop n (fun i strip =>
    (leds[i]?).map fun led =>
      strip.setPixelColor led.id (strip.Color led.red led.green led.blue)) strip).map
    Adafruit_NeoPixel.show_

/-! ## Programs over a pixel array -/

/-- One call of a mutating operation of `led.h` on a pixel array; the single-pixel operations
receive `&leds[i]`. -/
inductive Op where
  | SetHue (i : Nat) (hue : F32)
  | SetSaturation (i : Nat) (saturation : F32)
  | SetHSV (i : Nat) (hue saturation value : F32)
  | SetRGB (i : Nat) (red green blue : uint8_t)
  | SetHSVToAll (hue saturation value : F32) (n : Int)
  | SetRGBToAll (red green blue : uint8_t) (n : Int)
  | UpdateColorWheelHSV (i : Nat) (step : F32)

/-- Effect of one call. -/
def Op.run : Op → List LED → Option (List LED)
  | Op.SetHue i hue, leds => modifyAt leds i fun led => TreeLight.SetHue led hue
  | Op.SetSaturation i saturation, leds =>
    modifyAt leds i fun led => TreeLight.SetSaturation led saturation
  | Op.SetHSV i hue saturation value, leds =>
    modifyAt leds i fun led => TreeLight.SetHSV led hue saturation value
  | Op.SetRGB i red green blue, leds =>
    modifyAt leds i fun led => TreeLight.SetRGB led red green blue
  | Op.SetHSVToAll hue saturation value n, leds =>
    TreeLight.SetHSVToAll leds hue saturation value n
  | Op.SetRGBToAll red green blue n, leds => TreeLight.SetRGBToAll leds red green blue n
  | Op.UpdateColorWheelHSV i step, leds =>
    modifyAt leds i fun led => TreeLight.UpdateColorWheelHSV led step

/-- Effect of a sequence of calls, first call first. -/
def runOps : List Op → List LED → Option (List LED)
  | [], leds => some leds
  | op :: ops, leds => (op.run leds).bind (runOps ops)

/-! ## Loops over the pixel array -/

theorem modifyAt_eq_some {leds : List LED} {i : Nat} (f : LED → LED) (h : i < leds.length) :
    modifyAt leds i f = some (leds.set i (f leds[i])) := by
  simp [modifyAt, List.getElem?_eq_getElem h]

/-- A loop that rewrites cell `i` with `f i` succeeds when the range fits the array, keeps the
length, rewrites exactly the cells of its range and leaves the other cells alone. -/
theorem forRange_modifyAt (f : Nat → LED → LED) (count : Nat) :
    ∀ (start : Nat) (leds : List LED), start + count ≤ leds.length →
      ∃ out, forRange (fun i l => modifyAt l i (f i)) start count leds = some out ∧
        out.length = leds.length ∧
        ∀ j, out[j]? =
          if start ≤ j ∧ j < start + count then (leds[j]?).map (f j) else leds[j]? := by
  induction count with
  | zero =>
    intro start leds _
    refine ⟨leds, rfl, rfl, fun j => ?_⟩
    have : ¬ (start ≤ j ∧ j < start + 0) := by omega
    rw [if_neg this]
  | succ k ih =>
    intro start leds h
    have hs : start < leds.length := by omega
    obtain ⟨out, hout, hlen, hget⟩ := ih (start + 1) (leds.set start (f start leds[start]))
      (by simp; omega)
    refine ⟨out, ?_, by simpa using hlen, fun j => ?_⟩
    · simp [forRange, modifyAt_eq_some (f start) hs, hout]
    · rw [hget j]
      by_cases hj : j = start
      · subst hj
        have h1 : ¬ (j + 1 ≤ j ∧ j < j + 1 + k) := by omega
        have h2 : j ≤ j ∧ j < j + (k + 1) := by omega
        rw [if_neg h1, if_pos h2, List.getElem?_set_self hs, List.getElem?_eq_getElem hs]
        rfl
      · have hne : start ≠ j := fun e => hj e.symm
        have h3 : (start + 1 ≤ j ∧ j < start + 1 + k) ↔ (start ≤ j ∧ j < start + (k + 1)) := by
          omega
        simp only [List.getElem?_set_ne hne, h3]

/-! ## Float literals of the program -/

theorem lit_zero : F32.lit 0 = F32.fin 0 := by decide!

theorem lit_one : F32.lit 1 = F32.fin 1 := by decide!

/-! ## `InitLEDs` -/

/-- The record `InitLEDs` leaves in cell `i`. -/
theorem InitLEDs_cells (mem : Nat → LED) (n : Int) :
    ∃ leds, InitLEDs mem n = some leds ∧ leds.length = n.toNat ∧
      ∀ i, i < n.toNat → leds[i]? = some
        { id := ⟨i % 65536, Nat.mod_lt i (by decide)⟩, hue := F32.fin 0, saturation := F32.fin 1,
          value := F32.fin 1, red := 255, green := 0, blue := 0 } := by
  obtain ⟨out, hout, hlen, hget⟩ := forRange_modifyAt
    (fun i led =>
      { led with
        id := ⟨i % 65536, Nat.mod_lt i (by decide)⟩
        hue := F32.lit 0
        saturation := F32.lit 1
        value := F32.lit 1
        red := 255
        blue := 0
        green := 0 }) n.toNat 0 ((List.range n.toNat).map mem) (by simp)
  refine ⟨out, hout, by simpa using hlen, fun i hi => ?_⟩
  have h1 : 0 ≤ i ∧ i < 0 + n.toNat := by omega
  rw [hget i, if_pos h1, List.getElem?_eq_getElem (by simpa using hi)]
  simp [lit_zero, lit_one]

/-- C1: for every `n ≥ 0`, `InitLEDs(n)` returns a collection of exactly `n` pixels, each with
hue 0, saturation 1, value 1, red 255, green 0 and blue 0. -/
theorem InitLEDs_default (mem : Nat → LED) (n : Int) (hn : 0 ≤ n) :
    ∃ leds, InitLEDs mem n = some leds ∧ (leds.length : Int) = n ∧
      ∀ led ∈ leds, led.hue = F32.fin 0 ∧ led.saturation = F32.fin 1 ∧ led.value = F32.fin 1 ∧
        led.red = 255 ∧ led.green = 0 ∧ led.blue = 0 := by
  obtain ⟨leds, hrun, hlen, hcell⟩ := InitLEDs_cells mem n
  refine ⟨leds, hrun, by omega, fun led hmem => ?_⟩
  obtain ⟨i, hi, rfl⟩ := List.getElem_of_mem hmem
  have h := hcell i (by omega)
  rw [List.getElem?_eq_getElem hi] at h
  rw [Option.some.inj h]
  exact ⟨rfl, rfl, rfl, rfl, rfl, rfl⟩

/-- C1, at `n = 2` over a memory full of other values. -/
theorem InitLEDs_default_witness :
    (0 : Int) ≤ 2 ∧ ∃ leds, InitLEDs (fun _ => ⟨9, F32.nan, F32.nan, F32.nan, 1, 2, 3⟩) 2 =
      some leds ∧ (leds.length : Int) = 2 ∧
      ∀ led ∈ leds, led.hue = F32.fin 0 ∧ led.saturation = F32.fin 1 ∧ led.value = F32.fin 1 ∧
        led.red = 255 ∧ led.green = 0 ∧ led.blue = 0 :=
  ⟨by decide, InitLEDs_default _ 2 (by decide)⟩

/-- C2, as stated, fails: with 65537 pixels the pixel at position 65536 gets id 0. -/
theorem InitLEDs_id_wraps :
    ∃ leds led, InitLEDs (fun _ => ⟨9, F32.nan, F32.nan, F32.nan, 1, 2, 3⟩) 65537 = some leds ∧
      leds[65536]? = some led ∧ led.id.val = 0 ∧ led.id.val ≠ 65536 := by
  obtain ⟨leds, hrun, _, hcell⟩ :=
    InitLEDs_cells (fun _ => ⟨9, F32.nan, F32.nan, F32.nan, 1, 2, 3⟩) 65537
  exact ⟨leds, _, hrun, hcell 65536 (by decide), by decide, by decide⟩

/-- C2, amended: for every `n ≥ 0` and every position `i < n`, the pixel at position `i` of
`InitLEDs(n)` has id `i mod 65536` (the value the 16-bit field keeps of `i`); the id is `i`
itself whenever `i < 65536`. -/
theorem InitLEDs_id (mem : Nat → LED) (n : Int) (i : Nat) (hn : 0 ≤ n) (hi : (i : Int) < n) :
    ∃ leds led, InitLEDs mem n = some leds ∧ leds[i]? = some led ∧
      led.id.val = i % 65536 ∧ (i < 65536 → led.id.val = i) := by
  obtain ⟨leds, hrun, _, hcell⟩ := InitLEDs_cells mem n
  exact ⟨leds, _, hrun, hcell i (by omega), rfl, fun h => Nat.mod_eq_of_lt h⟩

/-- C2 amended, at `n = 3`, `i = 2`. -/
theorem InitLEDs_id_witness :
    (0 : Int) ≤ 3 ∧ ((2 : Nat) : Int) < 3 ∧
      ∃ leds led, InitLEDs (fun _ => ⟨9, F32.nan, F32.nan, F32.nan, 1, 2, 3⟩) 3 = some leds ∧
        leds[2]? = some led ∧ led.id.val = 2 % 65536 ∧ (2 < 65536 → led.id.val = 2) :=
  ⟨by decide, by decide, InitLEDs_id _ 3 2 (by decide) (by decide)⟩

/-! ## The bulk setters -/

theorem SetHSVToAll_cells (leds : List LED) (h s v : F32) :
    ∃ out : List LED, SetHSVToAll leds h s v (leds.length : Int) = some out ∧ out.length = leds.length ∧
      ∀ i : Nat, out[i]? = (leds[i]?).map fun led => SetHSV led h s v := by
  obtain ⟨out, hout, hlen, hget⟩ :=
    forRange_modifyAt (fun _ led => SetHSV led h s v) leds.length 0 leds (by omega)
  refine ⟨out, by simpa [SetHSVToAll, forLoop] using hout, hlen, fun i => ?_⟩
  rw [hget i]
  by_cases hi : i < leds.length
  · rw [if_pos ⟨Nat.zero_le i, by omega⟩]
  · rw [if_neg (by omega), List.getElem?_eq_none (by omega)]
    rfl

theorem SetRGBToAll_cells (leds : List LED) (r g b : uint8_t) :
    ∃ out : List LED, SetRGBToAll leds r g b (leds.length : Int) = some out ∧ out.length = leds.length ∧
      ∀ i : Nat, out[i]? = (leds[i]?).map fun led => SetRGB led r g b := by
  obtain ⟨out, hout, hlen, hget⟩ :=
    forRange_modifyAt (fun _ led => SetRGB led r g b) leds.length 0 leds (by omega)
  refine ⟨out, by simpa [SetRGBToAll, forLoop] using hout, hlen, fun i => ?_⟩
  rw [hget i]
  by_cases hi : i < leds.length
  · rw [if_pos ⟨Nat.zero_le i, by omega⟩]
  · rw [if_neg (by omega), List.getElem?_eq_none (by omega)]
    rfl

/-- C3: on a collection of length `n`, `SetHSVToAll` called with count `n` returns a collection
of the same length in which every pixel has hue `h`, saturation `s`, value `v`, and the red,
green and blue it had before the call. -/
theorem SetHSVToAll_sets_all (leds : List LED) (h s v : F32) :
    ∃ out : List LED, SetHSVToAll leds h s v (leds.length : Int) = some out ∧ out.length = leds.length ∧
      ∀ (i : Nat) (led : LED), leds[i]? = some led → ∃ led' : LED, out[i]? = some led' ∧
        led'.hue = h ∧ led'.saturation = s ∧ led'.value = v ∧
        led'.red = led.red ∧ led'.green = led.green ∧ led'.blue = led.blue := by
  obtain ⟨out, hrun, hlen, hcell⟩ := SetHSVToAll_cells leds h s v
  refine ⟨out, hrun, hlen, fun i led hled => ⟨SetHSV led h s v, ?_, rfl, rfl, rfl, rfl, rfl, rfl⟩⟩
  rw [hcell i, hled]
  rfl

/-- C3 on a two-pixel collection: the second pixel takes the new HSV and keeps its RGB. -/
theorem SetHSVToAll_sets_all_witness :
    ∃ out : List LED, SetHSVToAll [⟨0, F32.fin 0, F32.fin 1, F32.fin 1, 255, 0, 0⟩,
        ⟨1, F32.fin 1, F32.fin 0, F32.nan, 7, 8, 9⟩]
        (F32.fin (1 / 2)) (F32.fin (1 / 4)) (F32.fin (3 / 4)) 2 = some out ∧
      ∃ led' : LED, out[1]? = some led' ∧ led'.hue = F32.fin (1 / 2) ∧
        led'.saturation = F32.fin (1 / 4) ∧ led'.value = F32.fin (3 / 4) ∧
        led'.red = 7 ∧ led'.green = 8 ∧ led'.blue = 9 := by
  obtain ⟨out, hrun, _, hall⟩ := SetHSVToAll_sets_all
    [⟨0, F32.fin 0, F32.fin 1, F32.fin 1, 255, 0, 0⟩, ⟨1, F32.fin 1, F32.fin 0, F32.nan, 7, 8, 9⟩]
    (F32.fin (1 / 2)) (F32.fin (1 / 4)) (F32.fin (3 / 4))
  exact ⟨out, hrun, hall 1 ⟨1, F32.fin 1, F32.fin 0, F32.nan, 7, 8, 9⟩ rfl⟩

/-- C4: on a collection of length `n`, `SetRGBToAll` called with count `n` returns a collection
of the same length in which every pixel has red `r`, green `g`, blue `b`, and the hue,
saturation and value it had before the call. -/
theorem SetRGBToAll_sets_all (leds : List LED) (r g b : uint8_t) :
    ∃ out : List LED, SetRGBToAll leds r g b (leds.length : Int) = some out ∧ out.length = leds.length ∧
      ∀ (i : Nat) (led : LED), leds[i]? = some led → ∃ led' : LED, out[i]? = some led' ∧
        led'.red = r ∧ led'.green = g ∧ led'.blue = b ∧
        led'.hue = led.hue ∧ led'.saturation = led.saturation ∧ led'.value = led.value := by
  obtain ⟨out, hrun, hlen, hcell⟩ := SetRGBToAll_cells leds r g b
  refine ⟨out, hrun, hlen, fun i led hled => ⟨SetRGB led r g b, ?_, rfl, rfl, rfl, rfl, rfl, rfl⟩⟩
  rw [hcell i, hled]
  rfl

/-- C4 on a two-pixel collection: the second pixel takes the new RGB and keeps its HSV. -/
theorem SetRGBToAll_sets_all_witness :
    ∃ out : List LED, SetRGBToAll [⟨0, F32.fin 0, F32.fin 1, F32.fin 1, 255, 0, 0⟩,
        ⟨1, F32.fin 1, F32.fin 0, F32.nan, 7, 8, 9⟩] 10 20 30 2 = some out ∧
      ∃ led' : LED, out[1]? = some led' ∧ led'.red = 10 ∧ led'.green = 20 ∧ led'.blue = 30 ∧
        led'.hue = F32.fin 1 ∧ led'.saturation = F32.fin 0 ∧ led'.value = F32.nan := by
  obtain ⟨out, hrun, _, hall⟩ := SetRGBToAll_sets_all
    [⟨0, F32.fin 0, F32.fin 1, F32.fin 1, 255, 0, 0⟩, ⟨1, F32.fin 1, F32.fin 0, F32.nan, 7, 8, 9⟩]
    10 20 30
  exact ⟨out, hrun, hall 1 ⟨1, F32.fin 1, F32.fin 0, F32.nan, 7, 8, 9⟩ rfl⟩

/-! ## The single-pixel setters -/

/-- C7: the HSV fields and the RGB fields are independent under the single-pixel setters.
`SetHue` writes its argument to hue and changes nothing else, `SetSaturation` writes its argument
to saturation and changes nothing else, `SetHSV` writes its three arguments to hue, saturation
and value and leaves red, green, blue (and id) unchanged, `SetRGB` writes its three arguments to
red, green and blue and leaves hue, saturation, value (and id) unchanged; the written fields are
the arguments themselves, with no clamping. -/
theorem setters_independent (led : LED) (h s v : F32) (r g b : uint8_t) :
    ((SetHue led h).hue = h ∧ (SetHue led h).id = led.id ∧
      (SetHue led h).saturation = led.saturation ∧ (SetHue led h).value = led.value ∧
      (SetHue led h).red = led.red ∧ (SetHue led h).green = led.green ∧
      (SetHue led h).blue = led.blue) ∧
    ((SetSaturation led s).saturation = s ∧ (SetSaturation led s).id = led.id ∧
      (SetSaturation led s).hue = led.hue ∧ (SetSaturation led s).value = led.value ∧
      (SetSaturation led s).red = led.red ∧ (SetSaturation led s).green = led.green ∧
      (SetSaturation led s).blue = led.blue) ∧
    ((SetHSV led h s v).hue = h ∧ (SetHSV led h s v).saturation = s ∧
      (SetHSV led h s v).value = v ∧ (SetHSV led h s v).id = led.id ∧
      (SetHSV led h s v).red = led.red ∧ (SetHSV led h s v).green = led.green ∧
      (SetHSV led h s v).blue = led.blue) ∧
    ((SetRGB led r g b).red = r ∧ (SetRGB led r g b).green = g ∧ (SetRGB led r g b).blue = b ∧
      (SetRGB led r g b).id = led.id ∧ (SetRGB led r g b).hue = led.hue ∧
      (SetRGB led r g b).saturation = led.saturation ∧ (SetRGB led r g b).value = led.value) :=
  ⟨⟨rfl, rfl, rfl, rfl, rfl, rfl, rfl⟩, ⟨rfl, rfl, rfl, rfl, rfl, rfl, rfl⟩,
    ⟨rfl, rfl, rfl, rfl, rfl, rfl, rfl⟩, ⟨rfl, rfl, rfl, rfl, rfl, rfl, rfl⟩⟩

/-! ## Ids and length under the mutating operations -/

theorem lt_length_of_getElem_some {leds : List LED} {i : Nat} {led : LED}
    (h : leds[i]? = some led) : i < leds.length := by
  rcases Nat.lt_or_ge i leds.length with hi | hi
  · exact hi
  · rw [List.getElem?_eq_none hi] at h
    cases h

theorem modifyAt_ids {leds out : List LED} {i : Nat} {f : LED → LED}
    (h : modifyAt leds i f = some out) (hf : ∀ led, (f led).id = led.id) :
    out.length = leds.length ∧ out.map LED.id = leds.map LED.id := by
  unfold modifyAt at h
  split at h
  · cases h
  · next led hled =>
    cases h
    have hi := lt_length_of_getElem_some hled
    refine ⟨by simp, List.ext_getElem? fun j => ?_⟩
    by_cases hj : i = j
    · subst hj
      rw [List.getElem?_eq_getElem hi] at hled
      simp [List.getElem?_set, hf, hi, ← Option.some.inj hled]
    · simp [List.getElem?_set_ne hj]

/-- A property kept by every iteration is kept by the loop. -/
theorem forRange_invariant {σ : Type} (body : Nat → σ → Option σ) (P : σ → Prop)
    (hbody : ∀ i s s', body i s = some s' → P s → P s') (count : Nat) :
    ∀ (start : Nat) (s out : σ), forRange body start count s = some out → P s → P out := by
  induction count with
  | zero =>
    intro start s out h hs
    cases h
    exact hs
  | succ k ih =>
    intro start s out h hs
    simp only [forRange] at h
    cases hb : body start s with
    | none => simp [hb] at h
    | some s' =>
      rw [hb] at h
      exact ih (start + 1) s' out h (hbody start s s' hb hs)

theorem Op_run_ids {op : Op} {leds out : List LED} (h : op.run leds = some out) :
    out.length = leds.length ∧ out.map LED.id = leds.map LED.id := by
  cases op with
  | SetHue i hue => exact modifyAt_ids h (fun _ => rfl)
  | SetSaturation i saturation => exact modifyAt_ids h (fun _ => rfl)
  | SetHSV i hue saturation value => exact modifyAt_ids h (fun _ => rfl)
  | SetRGB i red green blue => exact modifyAt_ids h (fun _ => rfl)
  | UpdateColorWheelHSV i step => exact modifyAt_ids h (fun _ => rfl)
  | SetHSVToAll hue saturation value n =>
    exact forRange_invariant _
      (fun l => l.length = leds.length ∧ l.map LED.id = leds.map LED.id)
      (fun i s s' hb hs => by
        have := modifyAt_ids hb (fun _ => rfl)
        exact ⟨this.1.trans hs.1, this.2.trans hs.2⟩) _ 0 leds out h ⟨rfl, rfl⟩
  | SetRGBToAll red green blue n =>
    exact forRange_invariant _
      (fun l => l.length = leds.length ∧ l.map LED.id = leds.map LED.id)
      (fun i s s' hb hs => by
        have := modifyAt_ids hb (fun _ => rfl)
        exact ⟨this.1.trans hs.1, this.2.trans hs.2⟩) _ 0 leds out h ⟨rfl, rfl⟩

theorem runOps_ids (ops : List Op) :
    ∀ (leds out : List LED), runOps ops leds = some out →
      out.length = leds.length ∧ out.map LED.id = leds.map LED.id := by
  induction ops with
  | nil =>
    intro leds out h
    cases h
    exact ⟨rfl, rfl⟩
  | cons op ops ih =>
    intro leds out h
    simp only [runOps] at h
    cases hop : op.run leds with
    | none => simp [hop] at h
    | some mid =>
      rw [hop] at h
      have h1 := Op_run_ids hop
      have h2 := ih mid out h
      exact ⟨h2.1.trans h1.1, h2.2.trans h1.2⟩

/-- C8: the id is immutable after creation and the collection is never resized. No single-pixel
operation changes the id of its pixel; every mutating operation (`SetHue`, `SetSaturation`,
`SetHSV`, `SetRGB`, `SetHSVToAll`, `SetRGBToAll`, `UpdateColorWheelHSV`) that returns leaves the
length of the collection and the id at every position unchanged; hence in every state reached
from `InitLEDs(n)` by a sequence of these operations the collection has the length it was created
with and the pixel at each position has the id it was created with. -/
theorem ids_and_length_immutable :
    (∀ (led : LED) (h s v step : F32) (r g b : uint8_t),
      (SetHue led h).id = led.id ∧ (SetSaturation led s).id = led.id ∧
      (SetHSV led h s v).id = led.id ∧ (SetRGB led r g b).id = led.id ∧
      (UpdateColorWheelHSV led step).id = led.id) ∧
    (∀ (op : Op) (leds out : List LED), op.run leds = some out →
      out.length = leds.length ∧ out.map LED.id = leds.map LED.id) ∧
    (∀ (mem : Nat → LED) (n : Int) (ops : List Op) (leds out : List LED),
      InitLEDs mem n = some leds → runOps ops leds = some out →
      out.length = leds.length ∧
      ∀ (i : Nat) (led : LED), leds[i]? = some led →
        ∃ led' : LED, out[i]? = some led' ∧ led'.id = led.id) := by
  refine ⟨fun _ _ _ _ _ _ _ _ => ⟨rfl, rfl, rfl, rfl, rfl⟩, fun _ _ _ h => Op_run_ids h, ?_⟩
  intro mem n ops leds out _ hrun
  obtain ⟨hlen, hids⟩ := runOps_ids ops leds out hrun
  refine ⟨hlen, fun i led hled => ?_⟩
  have hi : i < leds.length := lt_length_of_getElem_some hled
  have h1 : (out.map LED.id)[i]? = (leds.map LED.id)[i]? := by rw [hids]
  rw [List.getElem?_map, List.getElem?_map, hled, List.getElem?_eq_getElem (by omega)] at h1
  exact ⟨out[i], List.getElem?_eq_getElem (by omega), Option.some.inj h1⟩

/-- C8 on a run: after `InitLEDs(2)`, a bulk HSV write, a hue step on pixel 1 and an RGB write
on pixel 0, position 1 still holds id 1. -/
theorem ids_and_length_immutable_witness :
    ∃ leds out : List LED,
      InitLEDs (fun _ => ⟨9, F32.nan, F32.nan, F32.nan, 1, 2, 3⟩) 2 = some leds ∧
      runOps [Op.SetHSVToAll (F32.fin (1 / 2)) (F32.fin 1) (F32.fin 1) 2,
        Op.UpdateColorWheelHSV 1 (F32.fin (1 / 4)), Op.SetRGB 0 1 2 3] leds = some out ∧
      out.length = leds.length ∧
      ∃ led' : LED, out[1]? = some led' ∧ led'.id = 1 := by
  obtain ⟨leds, hinit, _, hcell⟩ :=
    InitLEDs_cells (fun _ => ⟨9, F32.nan, F32.nan, F32.nan, 1, 2, 3⟩) 2
  have h0 := hcell 0 (by decide)
  have h1 := hcell 1 (by decide)
  have hleds : leds = [⟨0, F32.fin 0, F32.fin 1, F32.fin 1, 255, 0, 0⟩,
      ⟨1, F32.fin 0, F32.fin 1, F32.fin 1, 255, 0, 0⟩] := by
    apply List.ext_getElem? 
    intro j
    match j with
    | 0 => rw [h0]; rfl
    | 1 => rw [h1]; rfl
    | j + 2 => simp [List.getElem?_eq_none, *]
  subst hleds
  have hrun : runOps [Op.SetHSVToAll (F32.fin (1 / 2)) (F32.fin 1) (F32.fin 1) 2,
      Op.UpdateColorWheelHSV 1 (F32.fin (1 / 4)), Op.SetRGB 0 1 2 3]
      [⟨0, F32.fin 0, F32.fin 1, F32.fin 1, 255, 0, 0⟩,
        ⟨1, F32.fin 0, F32.fin 1, F32.fin 1, 255, 0, 0⟩] =
      some [⟨0, F32.fin (1 / 2), F32.fin 1, F32.fin 1, 1, 2, 3⟩,
        ⟨1, F32.fin (3 / 4), F32.fin 1, F32.fin 1, 255, 0, 0⟩] := by decide!
  exact ⟨_, _, hinit, hrun, (ids_and_length_immutable.2.2 _ _ _ _ _ hinit hrun).1,
    (ids_and_length_immutable.2.2 _ _ _ _ _ hinit hrun).2 1 _ rfl⟩

/-! ## The update routines -/

/-- A loop that reads `leds[i]` and feeds it to `g` is a left fold over the cells of its range. -/
theorem forRange_read {σ : Type} (leds : List LED) (g : σ → LED → σ) (count : Nat) :
    ∀ (start : Nat) (s : σ), start + count ≤ leds.length →
      forRange (fun i s => (leds[i]?).map fun led => g s led) start count s =
        some (((leds.drop start).take count).foldl g s) := by
  induction count with
  | zero =>
    intro start s _
    simp [forRange]
  | succ k ih =>
    intro start s h
    have hs : start < leds.length := by omega
    have hd : leds.drop start = leds[start] :: leds.drop (start + 1) :=
      List.drop_eq_getElem_cons hs
    simp only [forRange, List.getElem?_eq_getElem hs, Option.map_some', Option.some_bind]
    rw [ih (start + 1) (g s leds[start]) (by omega), hd]
    rfl

/-- Feeding pixels to the driver one `setPixelColor` at a time appends one call per pixel, in
order, and leaves the packing function alone. -/
theorem foldl_setPixelColor (c : (uint8_t → uint8_t → uint8_t → uint32_t) → LED → uint32_t)
    (l : List LED) :
    ∀ strip : Adafruit_NeoPixel,
      l.foldl (fun strip led => strip.setPixelColor led.id (c strip.Color led)) strip =
        { strip with
          calls := strip.calls ++
            l.map fun led => DriverCall.setPixelColor led.id (c strip.Color led) } := by
  induction l with
  | nil =>
    intro strip
    simp
  | cons led l ih =>
    intro strip
    rw [List.foldl_cons, ih]
    simp [Adafruit_NeoPixel.setPixelColor]

/-- C9: for a collection of length `n`, `UpdateLEDsRGB` called with count `n` returns, and what
it adds to the calls received by the strip driver is exactly one `setPixelColor` per pixel, in
position order, followed by one `show` and nothing else; the call for the pixel at position `k`
carries that pixel's stored id and the colour packed from its stored red, green and blue,
unconverted. -/
theorem UpdateLEDsRGB_calls (strip : Adafruit_NeoPixel) (leds : List LED) :
    UpdateLEDsRGB strip leds (leds.length : Int) = some
      { strip with
        calls := strip.calls ++
          (leds.map fun led =>
            DriverCall.setPixelColor led.id (strip.Color led.red led.green led.blue)) ++
          [DriverCall.show_] } := by
  unfold UpdateLEDsRGB forLoop
  rw [Int.toNat_ofNat, forRange_read leds _ leds.length 0 strip (by omega)]
  rw [List.drop_zero, List.take_length,
    foldl_setPixelColor (fun C led => C led.red led.green led.blue) leds strip]
  rfl

/-- C10: for a collection of length `n`, `UpdateLEDsHSV` called with count `n` returns, and what
it adds to the calls received by the strip driver is exactly one `setPixelColor` per pixel, in
position order, followed by exactly one `show` (alone when `n = 0`); the call for the pixel at
position `k` carries that pixel's stored id and the colour packed from the three channels of the
section 4.2 conversion of its (hue, saturation, value), each multiplied by 255 and passed as an
8-bit argument. -/
theorem UpdateLEDsHSV_calls (strip : Adafruit_NeoPixel) (leds : List LED) :
    UpdateLEDsHSV strip leds (leds.length : Int) = some
      { strip with
        calls := strip.calls ++
          (leds.map fun led =>
            DriverCall.setPixelColor led.id
              (strip.Color
                (F32.toUInt8 (F32.mul (hsv2rgb led.hue led.saturation led.value).1
                  (F32.lit 255)))
                (F32.toUInt8 (F32.mul (hsv2rgb led.hue led.saturation led.value).2.1
                  (F32.lit 255)))
                (F32.toUInt8 (F32.mul (hsv2rgb led.hue led.saturation led.value).2.2
                  (F32.lit 255))))) ++
          [DriverCall.show_] } := by
  unfold UpdateLEDsHSV forLoop
  rw [Int.toNat_ofNat, forRange_read leds _ leds.length 0 strip (by omega)]
  rw [List.drop_zero, List.take_length,
    foldl_setPixelColor (fun C led =>
      C (F32.toUInt8 (F32.mul (hsv2rgb led.hue led.saturation led.value).1 (F32.lit 255)))
        (F32.toUInt8 (F32.mul (hsv2rgb led.hue led.saturation led.value).2.1 (F32.lit 255)))
        (F32.toUInt8 (F32.mul (hsv2rgb led.hue led.saturation led.value).2.2 (F32.lit 255))))
      leds strip]
  rfl

/-! ## Rounding to binary32: lower bounds at powers of two -/

namespace F32

theorem le_expoAux (a : ℚ) (k : ℤ) (h : (2 : ℚ) ^ k ≤ a) :
    ∀ fuel : Nat, k + 126 ≤ fuel → k ≤ expoAux a fuel := by
  intro fuel
  induction fuel with
  | zero =>
    intro hk
    simp only [expoAux]
    omega
  | succ j ih =>
    intro hk
    simp only [expoAux]
    split
    · push_cast at hk
      omega
    · next hlt =>
      apply ih
      have hlt' : a < (2 : ℚ) ^ ((j : ℤ) - 125) := lt_of_not_ge hlt
      have : (2 : ℚ) ^ k < (2 : ℚ) ^ ((j : ℤ) - 125) := lt_of_le_of_lt h hlt'
      have hk' : k < (j : ℤ) - 125 := (zpow_lt_zpow_iff_right₀ (by norm_num)).1 this
      omega

theorem expoAux_pow_le (a : ℚ) :
    ∀ fuel : Nat, expoAux a fuel = -126 ∨ (2 : ℚ) ^ expoAux a fuel ≤ a := by
  intro fuel
  induction fuel with
  | zero => exact Or.inl rfl
  | succ j ih =>
    simp only [expoAux]
    split
    · next h => exact Or.inr h
    · exact ih

/-- The exponent picked for `a` is at least `k` as soon as `2 ^ k ≤ a`, and its power of two is
then below `a`. -/
theorem pow_expo_le (a : ℚ) (k : ℤ) (hk : -126 ≤ k) (hk' : k ≤ 127) (h : (2 : ℚ) ^ k ≤ a) :
    k ≤ expo a ∧ (2 : ℚ) ^ expo a ≤ a := by
  have h1 : k ≤ expo a := le_expoAux a k h 253 (by push_cast; omega)
  refine ⟨h1, ?_⟩
  rcases expoAux_pow_le a 253 with h2 | h2
  · have : expo a = k := by
      unfold expo at h1 ⊢
      omega
    rw [this]
    exact h
  · exact h2

theorem le_rne (x : ℚ) (n : ℤ) (h : (n : ℚ) ≤ x) : n ≤ rne x := by
  have hf : n ≤ ⌊x⌋ := Int.le_floor.2 h
  unfold rne
  split
  · exact hf
  · split
    · omega
    · split
      · exact hf
      · omega

theorem ulp_pos (q : ℚ) : 0 < ulp q := zpow_pos (by norm_num) _

theorem pow_eq_mul_ulp (q : ℚ) (k : ℤ) :
    (2 : ℚ) ^ (expo |q| + k) = ((2 ^ 23 : ℤ) : ℚ) * (2 : ℚ) ^ k * ulp q := by
  rw [ulp, zpow_sub₀ (by norm_num : (2 : ℚ) ≠ 0), zpow_add₀ (by norm_num : (2 : ℚ) ≠ 0)]
  push_cast
  field_simp
  ring

/-- A multiple of the spacing below `q` stays below the rounded value. -/
theorem mul_ulp_le_nearest (q : ℚ) (n : ℤ) (h : (n : ℚ) * ulp q ≤ q) :
    (n : ℚ) * ulp q ≤ nearest q := by
  have h1 : (n : ℚ) ≤ q / ulp q := (le_div_iff₀ (ulp_pos q)).2 h
  have h2 : (n : ℚ) ≤ (rne (q / ulp q) : ℚ) := by exact_mod_cast le_rne _ _ h1
  exact mul_le_mul_of_nonneg_right h2 (ulp_pos q).le

/-- Rounding never takes a value at or above a power of two `2 ^ k` below that power. -/
theorem pow_le_rnd (q : ℚ) (k : ℤ) (hk : -126 ≤ k) (hk' : k ≤ 127) (h : (2 : ℚ) ^ k ≤ q) :
    rnd q = inf false ∨ ∃ r, rnd q = fin r ∧ (2 : ℚ) ^ k ≤ r := by
  have hpos : (0 : ℚ) < (2 : ℚ) ^ k := zpow_pos (by norm_num) k
  have hq : 0 < q := lt_of_lt_of_le hpos h
  have habs : |q| = q := abs_of_pos hq
  obtain ⟨hke, hle⟩ := pow_expo_le q k hk hk' h
  have hsplit : (2 : ℚ) ^ expo q = ((2 ^ 23 : ℤ) : ℚ) * ulp q := by
    have := pow_eq_mul_ulp q 0
    rwa [habs, add_zero, zpow_zero, mul_one] at this
  have hr : (2 : ℚ) ^ k ≤ nearest q :=
    calc (2 : ℚ) ^ k ≤ (2 : ℚ) ^ expo q := zpow_le_zpow_right₀ (by norm_num) hke
      _ = ((2 ^ 23 : ℤ) : ℚ) * ulp q := hsplit
      _ ≤ nearest q := mul_ulp_le_nearest q _ (hsplit ▸ hle)
  unfold rnd
  split
  · left
    simp [not_lt.2 hq.le]
  · right
    exact ⟨_, rfl, hr⟩

/-! ## Rounding to binary32 is monotone -/

theorem expoAux_ge (a : ℚ) : ∀ fuel : Nat, -126 ≤ expoAux a fuel := by
  intro fuel
  induction fuel with
  | zero => simp [expoAux]
  | succ j ih =>
    simp only [expoAux]
    split
    · omega
    · exact ih

theorem expoAux_le (a : ℚ) : ∀ fuel : Nat, expoAux a fuel ≤ (fuel : ℤ) - 126 := by
  intro fuel
  induction fuel with
  | zero => simp [expoAux]
  | succ j ih =>
    simp only [expoAux]
    split
    · push_cast
      omega
    · push_cast
      omega

theorem lt_pow_expoAux (a : ℚ) :
    ∀ fuel : Nat, expoAux a fuel < (fuel : ℤ) - 126 → a < (2 : ℚ) ^ (expoAux a fuel + 1) := by
  intro fuel
  induction fuel with
  | zero =>
    intro h
    simp [expoAux] at h
  | succ j ih =>
    simp only [expoAux]
    split
    · intro h
      push_cast at h
      omega
    · next hlt =>
      intro _
      have hlt' : a < (2 : ℚ) ^ ((j : ℤ) - 125) := lt_of_not_ge hlt
      rcases lt_or_eq_of_le (expoAux_le a j) with h | h
      · exact ih h
      · rw [h]
        have : (j : ℤ) - 126 + 1 = (j : ℤ) - 125 := by ring
        rw [this]
        exact hlt'

theorem expo_ge (a : ℚ) : -126 ≤ expo a := expoAux_ge a 253

theorem expo_le (a : ℚ) : expo a ≤ 127 := by
  have := expoAux_le a 253
  unfold expo
  push_cast at this
  omega

/-- Below the top binade, `a` is less than the next power of two. -/
theorem lt_pow_expo (a : ℚ) (h : expo a < 127) : a < (2 : ℚ) ^ (expo a + 1) :=
  lt_pow_expoAux a 253 (by unfold expo at h; push_cast; omega)

/-- Above the subnormal range, `a` is at least the power of two of its binade. -/
theorem pow_expo_le_self (a : ℚ) (h : -126 < expo a) : (2 : ℚ) ^ expo a ≤ a := by
  rcases expoAux_pow_le a 253 with h1 | h1
  · unfold expo at h
    omega
  · exact h1

theorem expo_mono {a b : ℚ} (h : a ≤ b) : expo a ≤ expo b := by
  rcases eq_or_lt_of_le (expo_ge a) with h1 | h1
  · rw [← h1]
    exact expo_ge b
  · exact (pow_expo_le b (expo a) h1.le (expo_le a) ((pow_expo_le_self a h1).trans h)).1

theorem rne_le (x : ℚ) (n : ℤ) (h : x ≤ (n : ℚ)) : rne x ≤ n := by
  rcases eq_or_lt_of_le h with h1 | h1
  · have hf : ⌊x⌋ = n := by rw [h1, Int.floor_intCast]
    have hx : x - (⌊x⌋ : ℚ) < 1 / 2 := by
      rw [hf, h1]
      norm_num
    unfold rne
    rw [if_pos hx, hf]
  · have hf : ⌊x⌋ < n := Int.floor_lt.2 h1
    unfold rne
    split
    · omega
    · split
      · omega
      · split <;> omega

theorem floor_le_rne (x : ℚ) : ⌊x⌋ ≤ rne x := le_rne x ⌊x⌋ (Int.floor_le x)

theorem rne_le_floor_add_one (x : ℚ) : rne x ≤ ⌊x⌋ + 1 :=
  rne_le x (⌊x⌋ + 1) (by push_cast; exact (Int.lt_floor_add_one x).le)

theorem rne_mono {x y : ℚ} (h : x ≤ y) : rne x ≤ rne y := by
  rcases lt_or_eq_of_le (Int.floor_mono h) with hf | hf
  · have h1 := rne_le_floor_add_one x
    have h2 := floor_le_rne y
    omega
  · have hxy : x - (⌊x⌋ : ℚ) ≤ y - (⌊y⌋ : ℚ) := by
      rw [hf]
      linarith
    unfold rne
    rw [hf]
    split_ifs <;> first | omega | linarith

/-- A multiple of the spacing above `q` stays above the rounded value. -/
theorem nearest_le_mul_ulp (q : ℚ) (n : ℤ) (h : q ≤ (n : ℚ) * ulp q) :
    nearest q ≤ (n : ℚ) * ulp q := by
  have h1 : q / ulp q ≤ (n : ℚ) := (div_le_iff₀ (ulp_pos q)).2 h
  have h2 : (rne (q / ulp q) : ℚ) ≤ (n : ℚ) := by exact_mod_cast rne_le _ _ h1
  exact mul_le_mul_of_nonneg_right h2 (ulp_pos q).le

theorem nearest_nonneg {q : ℚ} (h : 0 ≤ q) : 0 ≤ nearest q := by
  have := mul_ulp_le_nearest q 0 (by simpa using h)
  simpa using this

theorem nearest_nonpos {q : ℚ} (h : q ≤ 0) : nearest q ≤ 0 := by
  have := nearest_le_mul_ulp q 0 (by simpa using h)
  simpa using this

theorem nearest_mono_of_ulp_eq {a b : ℚ} (h : a ≤ b) (hu : ulp a = ulp b) :
    nearest a ≤ nearest b := by
  unfold nearest
  rw [hu]
  have h1 : a / ulp b ≤ b / ulp b := div_le_div_of_nonneg_right h (ulp_pos b).le
  have h2 : (rne (a / ulp b) : ℚ) ≤ (rne (b / ulp b) : ℚ) := by exact_mod_cast rne_mono h1
  exact mul_le_mul_of_nonneg_right h2 (ulp_pos b).le

theorem pow_expo_eq (q : ℚ) : (2 : ℚ) ^ expo |q| = ((2 ^ 23 : ℤ) : ℚ) * ulp q := by
  have := pow_eq_mul_ulp q 0
  rwa [add_zero, zpow_zero, mul_one] at this

theorem pow_expo_succ_eq (q : ℚ) : (2 : ℚ) ^ (expo |q| + 1) = ((2 ^ 24 : ℤ) : ℚ) * ulp q := by
  rw [pow_eq_mul_ulp q 1]
  norm_num

theorem ulp_eq_of_expo_eq {a b : ℚ} (h : expo |a| = expo |b|) : ulp a = ulp b := by
  unfold ulp
  rw [h]

/-- The rounded value of `q` lies between the two powers of two that enclose `|q|`. -/
theorem nearest_bounds (q : ℚ) :
    ((2 : ℚ) ^ expo |q| ≤ q → (2 : ℚ) ^ expo |q| ≤ nearest q) ∧
    (q ≤ (2 : ℚ) ^ (expo |q| + 1) → nearest q ≤ (2 : ℚ) ^ (expo |q| + 1)) ∧
    (q ≤ -(2 : ℚ) ^ expo |q| → nearest q ≤ -(2 : ℚ) ^ expo |q|) ∧
    (-(2 : ℚ) ^ (expo |q| + 1) ≤ q → -(2 : ℚ) ^ (expo |q| + 1) ≤ nearest q) := by
  refine ⟨fun h => ?_, fun h => ?_, fun h => ?_, fun h => ?_⟩
  · rw [pow_expo_eq] at h ⊢
    exact mul_ulp_le_nearest q _ h
  · rw [pow_expo_succ_eq] at h ⊢
    exact nearest_le_mul_ulp q _ h
  · have e : -(2 : ℚ) ^ expo |q| = ((-(2 ^ 23) : ℤ) : ℚ) * ulp q := by
      rw [pow_expo_eq]
      push_cast
      ring
    rw [e] at h ⊢
    exact nearest_le_mul_ulp q _ h
  · have e : -(2 : ℚ) ^ (expo |q| + 1) = ((-(2 ^ 24) : ℤ) : ℚ) * ulp q := by
      rw [pow_expo_succ_eq]
      push_cast
      ring
    rw [e] at h ⊢
    exact mul_ulp_le_nearest q _ h

theorem nearest_mono_nonneg {a b : ℚ} (ha : 0 ≤ a) (h : a ≤ b) : nearest a ≤ nearest b := by
  have hb : 0 ≤ b := ha.trans h
  have he : expo |a| ≤ expo |b| := by
    rw [abs_of_nonneg ha, abs_of_nonneg hb]
    exact expo_mono h
  rcases eq_or_lt_of_le he with he | he
  · exact nearest_mono_of_ulp_eq h (ulp_eq_of_expo_eq he)
  · have h1 : a ≤ (2 : ℚ) ^ (expo |a| + 1) := by
      have := lt_pow_expo |a| (lt_of_lt_of_le he (expo_le _))
      rw [abs_of_nonneg ha] at this ⊢
      exact this.le
    have h2 : (2 : ℚ) ^ expo |b| ≤ b := by
      have := pow_expo_le_self |b| (lt_of_le_of_lt (expo_ge _) he)
      rw [abs_of_nonneg hb] at this ⊢
      exact this
    calc nearest a ≤ (2 : ℚ) ^ (expo |a| + 1) := (nearest_bounds a).2.1 h1
      _ ≤ (2 : ℚ) ^ expo |b| := zpow_le_zpow_right₀ (by norm_num) (by omega)
      _ ≤ nearest b := (nearest_bounds b).1 h2

theorem nearest_mono_nonpos {a b : ℚ} (hb : b ≤ 0) (h : a ≤ b) : nearest a ≤ nearest b := by
  have ha : a ≤ 0 := h.trans hb
  have he : expo |b| ≤ expo |a| := by
    rw [abs_of_nonpos ha, abs_of_nonpos hb]
    exact expo_mono (by linarith)
  rcases eq_or_lt_of_le he with he | he
  · exact nearest_mono_of_ulp_eq h (ulp_eq_of_expo_eq he.symm)
  · have h1 : -(2 : ℚ) ^ (expo |b| + 1) ≤ b := by
      have := lt_pow_expo |b| (lt_of_lt_of_le he (expo_le _))
      rw [abs_of_nonpos hb] at this
      rw [abs_of_nonpos hb]
      linarith
    have h2 : a ≤ -(2 : ℚ) ^ expo |a| := by
      have := pow_expo_le_self |a| (lt_of_le_of_lt (expo_ge _) he)
      rw [abs_of_nonpos ha] at this
      rw [abs_of_nonpos ha]
      linarith
    have h3 : (2 : ℚ) ^ (expo |b| + 1) ≤ (2 : ℚ) ^ expo |a| :=
      zpow_le_zpow_right₀ (by norm_num) (by omega)
    calc nearest a ≤ -(2 : ℚ) ^ expo |a| := (nearest_bounds a).2.2.1 h2
      _ ≤ -(2 : ℚ) ^ (expo |b| + 1) := by linarith
      _ ≤ nearest b := (nearest_bounds b).2.2.2 h1

/-- Rounding to the nearest multiple of the local spacing is monotone. -/
theorem nearest_mono {a b : ℚ} (h : a ≤ b) : nearest a ≤ nearest b := by
  rcases le_total 0 a with ha | ha
  · exact nearest_mono_nonneg ha h
  · rcases le_total b 0 with hb | hb
    · exact nearest_mono_nonpos hb h
    · exact (nearest_nonpos ha).trans (nearest_nonneg hb)

/-- Binary32 rounding is monotone: `a ≤ b` gives `rnd a <= rnd b`. -/
theorem rnd_mono {a b : ℚ} (h : a ≤ b) : rnd a ≤ rnd b := by
  have hn := nearest_mono h
  show le (rnd a) (rnd b) = true
  unfold rnd
  by_cases ha : (2 : ℚ) ^ 128 ≤ |nearest a| <;> by_cases hb : (2 : ℚ) ^ 128 ≤ |nearest b|
  · rw [if_pos ha, if_pos hb]
    by_cases h0 : a < 0
    · simp [le, h0]
    · have : ¬ b < 0 := by linarith
      simp [le, h0, this]
  · rw [if_pos ha, if_neg hb]
    by_cases h0 : a < 0
    · simp [le, h0]
    · exfalso
      have h1 := nearest_nonneg (not_lt.1 h0)
      rw [abs_of_nonneg h1] at ha
      exact hb (ha.trans ((le_abs_self _).trans' hn))
  · rw [if_neg ha, if_pos hb]
    by_cases h0 : b < 0
    · exfalso
      have h1 := nearest_nonpos h0.le
      rw [abs_of_nonpos h1] at hb
      apply ha
      have : nearest a ≤ 0 := hn.trans h1
      rw [abs_of_nonpos this]
      linarith
    · simp [le, h0]
  · rw [if_neg ha, if_neg hb]
    exact decide_eq_true hn

/-- Rounding stays below a binary32 value that bounds the exact result from above. -/
theorem rnd_le_of_le {q v : ℚ} (hv : IsBinary32 (fin v)) (h : q ≤ v) : rnd q ≤ fin v := by
  have h1 : rnd q ≤ rnd v := rnd_mono h
  have h2 : rnd v = fin v := hv
  rwa [h2] at h1

/-- Rounding stays above a binary32 value that bounds the exact result from below. -/
theorem le_rnd_of_le {q v : ℚ} (hv : IsBinary32 (fin v)) (h : v ≤ q) : fin v ≤ rnd q := by
  have h1 : rnd v ≤ rnd q := rnd_mono h
  have h2 : rnd v = fin v := hv
  rwa [h2] at h1

theorem fin_le_cases {a : ℚ} {x : F32} (h : fin a ≤ x) :
    x = inf false ∨ ∃ r, x = fin r ∧ a ≤ r := by
  cases x with
  | nan => cases h
  | inf n =>
    cases n with
    | false => exact Or.inl rfl
    | true => cases h
  | fin r => exact Or.inr ⟨r, rfl, of_decide_eq_true h⟩

theorem le_fin_cases {a : ℚ} {x : F32} (h : x ≤ fin a) :
    x = inf true ∨ ∃ r, x = fin r ∧ r ≤ a := by
  cases x with
  | nan => cases h
  | inf n =>
    cases n with
    | false => cases h
    | true => exact Or.inl rfl
  | fin r => exact Or.inr ⟨r, rfl, of_decide_eq_true h⟩

theorem not_lt_of_le {a b : F32} (h : a ≤ b) : ¬ b < a := by
  change le a b = true at h
  change ¬ lt b a = true
  rcases a with _ | n | r <;> rcases b with _ | m | t <;> simp_all [le, lt]
  · cases n <;> cases m <;> simp_all

end F32

/-! ## `UpdateColorWheelHSV` -/

theorem UpdateColorWheelHSV_hue_eq (led : LED) (step : F32) :
    (UpdateColorWheelHSV led step).hue =
      if F32.fin 1 < F32.add led.hue step then F32.sub (F32.add led.hue step) (F32.fin 1)
      else F32.add led.hue step := by
  simp only [UpdateColorWheelHSV, lit_one]

/-- C5, as stated, fails on its first example: from hue `0.95f` a step of `0.1f` gives the
binary32 value `209715/4194304 = 0.0499999523...`, which is neither `0.05f` nor the number
`0.05`. -/
theorem UpdateColorWheelHSV_095_010 :
    (UpdateColorWheelHSV ⟨0, F32.lit (19 / 20), F32.fin 1, F32.fin 1, 255, 0, 0⟩
        (F32.lit (1 / 10))).hue = F32.fin (209715 / 4194304) ∧
    (UpdateColorWheelHSV ⟨0, F32.lit (19 / 20), F32.fin 1, F32.fin 1, 255, 0, 0⟩
        (F32.lit (1 / 10))).hue ≠ F32.lit (1 / 20) ∧
    (UpdateColorWheelHSV ⟨0, F32.lit (19 / 20), F32.fin 1, F32.fin 1, 255, 0, 0⟩
        (F32.lit (1 / 10))).hue ≠ F32.fin (1 / 20) := by
  decide!

/-- C5, amended: with `+`, `-`, `<=` and `>` the binary32 operations, `UpdateColorWheelHSV` sets
the hue to `hue + step` when `hue + step <= 1.0` and to `(hue + step) - 1.0` when
`hue + step > 1.0` (one subtraction only), and leaves saturation and value unchanged; in
particular hue `0.95f` with step `0.1f` gives `209715/4194304`, which is within `2^-24` of
`0.05`, and hue `0.5` with step `1.5` gives `1.0`. -/
theorem UpdateColorWheelHSV_spec (led : LED) (step : F32) :
    (F32.add led.hue step ≤ F32.fin 1 →
      (UpdateColorWheelHSV led step).hue = F32.add led.hue step) ∧
    (F32.fin 1 < F32.add led.hue step →
      (UpdateColorWheelHSV led step).hue = F32.sub (F32.add led.hue step) (F32.fin 1)) ∧
    (UpdateColorWheelHSV led step).saturation = led.saturation ∧
    (UpdateColorWheelHSV led step).value = led.value ∧
    ((UpdateColorWheelHSV { led with hue := F32.lit (19 / 20) } (F32.lit (1 / 10))).hue =
        F32.fin (209715 / 4194304) ∧
      |(209715 / 4194304 : ℚ) - 1 / 20| < 1 / 2 ^ 24) ∧
    (UpdateColorWheelHSV { led with hue := F32.lit (1 / 2) } (F32.lit (3 / 2))).hue =
      F32.fin 1 := by
  refine ⟨fun h => ?_, fun h => ?_, rfl, rfl, ⟨?_, ?_⟩, ?_⟩
  · rw [UpdateColorWheelHSV_hue_eq, if_neg (F32.not_lt_of_le h)]
  · rw [UpdateColorWheelHSV_hue_eq, if_pos h]
  · rw [UpdateColorWheelHSV_hue_eq]
    dsimp only
    decide!
  · rw [abs_lt]
    constructor <;> norm_num
  · rw [UpdateColorWheelHSV_hue_eq]
    dsimp only
    decide!

/-- C5 amended, on a pixel that does not wrap (`0.25 + 0.5`) and on one that does
(`0.75 + 0.5`). -/
theorem UpdateColorWheelHSV_spec_witness :
    (UpdateColorWheelHSV ⟨3, F32.fin (1 / 4), F32.fin 1, F32.fin 1, 255, 0, 0⟩
        (F32.fin (1 / 2))).hue =
      F32.add (F32.fin (1 / 4)) (F32.fin (1 / 2)) ∧
    (UpdateColorWheelHSV ⟨3, F32.fin (3 / 4), F32.fin 1, F32.fin 1, 255, 0, 0⟩
        (F32.fin (1 / 2))).hue =
      F32.sub (F32.add (F32.fin (3 / 4)) (F32.fin (1 / 2))) (F32.fin 1) :=
  ⟨(UpdateColorWheelHSV_spec ⟨3, F32.fin (1 / 4), F32.fin 1, F32.fin 1, 255, 0, 0⟩
      (F32.fin (1 / 2))).1 (by decide!),
    (UpdateColorWheelHSV_spec ⟨3, F32.fin (3 / 4), F32.fin 1, F32.fin 1, 255, 0, 0⟩
      (F32.fin (1 / 2))).2.1 (by decide!)⟩

/-- C6, as stated, fails: hue `0.0` with step `2.0` ends at exactly `1.0`, which is not
strictly greater than `1.0`. -/
theorem UpdateColorWheelHSV_step_two :
    F32.fin 0 ≤ (⟨0, F32.fin 0, F32.fin 1, F32.fin 1, 255, 0, 0⟩ : LED).hue ∧
    (⟨0, F32.fin 0, F32.fin 1, F32.fin 1, 255, 0, 0⟩ : LED).hue ≤ F32.fin 1 ∧
    F32.fin 2 ≤ F32.fin 2 ∧
    (UpdateColorWheelHSV ⟨0, F32.fin 0, F32.fin 1, F32.fin 1, 255, 0, 0⟩ (F32.fin 2)).hue =
      F32.fin 1 ∧
    ¬ F32.fin 1 <
      (UpdateColorWheelHSV ⟨0, F32.fin 0, F32.fin 1, F32.fin 1, 255, 0, 0⟩ (F32.fin 2)).hue := by
  decide!

/-! ## The colour model conversion -/

theorem lit_six : F32.lit 6 = F32.fin 6 := by decide!

theorem lit_255 : F32.lit 255 = F32.fin 255 := by decide!

/-- C12: with saturation `0` the conversion yields `(v, v, v)`, whatever the hue `h` (in [0,1]
or not) and the value `v`. -/
theorem hsv2rgb_achromatic (h v : F32) : hsv2rgb h (F32.fin 0) v = (v, v, v) := by
  have h0 : F32.eq (F32.fin 0) (F32.lit 0) = true := by decide!
  simp only [hsv2rgb, h0, if_true]

/-- C14: at the sector boundaries with saturation `1` and value `1` the conversion yields the
primaries: hue `0` gives `(1,0,0)`, hue `1/3` (the binary32 value nearest to it, and the exact
third as well) gives `(0,1,0)`, hue `2/3` (likewise) gives `(0,0,1)`; hue `1` falls in sector
`6 mod 6 = 0` and gives the same result as hue `0`. -/
theorem hsv2rgb_primaries :
    hsv2rgb (F32.fin 0) (F32.fin 1) (F32.fin 1) = (F32.fin 1, F32.fin 0, F32.fin 0) ∧
    hsv2rgb (F32.lit (1 / 3)) (F32.fin 1) (F32.fin 1) = (F32.fin 0, F32.fin 1, F32.fin 0) ∧
    hsv2rgb (F32.fin (1 / 3)) (F32.fin 1) (F32.fin 1) = (F32.fin 0, F32.fin 1, F32.fin 0) ∧
    hsv2rgb (F32.lit (2 / 3)) (F32.fin 1) (F32.fin 1) = (F32.fin 0, F32.fin 0, F32.fin 1) ∧
    hsv2rgb (F32.fin (2 / 3)) (F32.fin 1) (F32.fin 1) = (F32.fin 0, F32.fin 0, F32.fin 1) ∧
    (F32.floorInt (F32.mul (F32.fin 1) (F32.lit 6)) = 6 ∧
      (F32.floorInt (F32.mul (F32.fin 1) (F32.lit 6)) % 6).toNat = 0) ∧
    hsv2rgb (F32.fin 1) (F32.fin 1) (F32.fin 1) =
      hsv2rgb (F32.fin 0) (F32.fin 1) (F32.fin 1) := by
  decide!

/-! ## The bulk setters beyond their count -/

/-- A write loop over the first `n` cells of a longer array returns, keeps the length and leaves
every cell from position `n` on as it was. -/
theorem forLoop_modifyAt_frame (f : Nat → LED → LED) (leds : List LED) (n : Int)
    (hn : n ≤ (leds.length : Int)) :
    ∃ out : List LED, forLoop n (fun i l => modifyAt l i (f i)) leds = some out ∧
      out.length = leds.length ∧ ∀ j : Nat, n ≤ (j : Int) → out[j]? = leds[j]? := by
  obtain ⟨out, hout, hlen, hget⟩ := forRange_modifyAt f n.toNat 0 leds (by omega)
  refine ⟨out, hout, hlen, fun j hj => ?_⟩
  rw [hget j, if_neg (by omega)]

/-- C16: the bulk setters touch only the first `count` pixels. On a collection of length `m`,
`SetHSVToAll` and `SetRGBToAll` called with a count `n`, `0 <= n <= m`, return a collection of
the same length in which every pixel at a position `>= n` is entirely unchanged; with `n = 0`
the whole collection is unchanged. -/
theorem bulk_setters_frame (leds : List LED) (h s v : F32) (r g b : uint8_t) (n : Int)
    (_h0 : 0 ≤ n) (hn : n ≤ (leds.length : Int)) :
    ∃ o1 o2 : List LED,
      SetHSVToAll leds h s v n = some o1 ∧ SetRGBToAll leds r g b n = some o2 ∧
      o1.length = leds.length ∧ o2.length = leds.length ∧
      (∀ j : Nat, n ≤ (j : Int) → o1[j]? = leds[j]? ∧ o2[j]? = leds[j]?) ∧
      (n = 0 → o1 = leds ∧ o2 = leds) := by
  obtain ⟨o1, hr1, hl1, hf1⟩ :=
    forLoop_modifyAt_frame (fun _ led => SetHSV led h s v) leds n hn
  obtain ⟨o2, hr2, hl2, hf2⟩ :=
    forLoop_modifyAt_frame (fun _ led => SetRGB led r g b) leds n hn
  refine ⟨o1, o2, hr1, hr2, hl1, hl2, fun j hj => ⟨hf1 j hj, hf2 j hj⟩, fun hz => ?_⟩
  exact ⟨List.ext_getElem? fun j => hf1 j (by omega), List.ext_getElem? fun j => hf2 j (by omega)⟩

/-- C16 on three pixels with count `1`: both setters return and the pixel at position 2 is the
one that was there. -/
theorem bulk_setters_frame_witness :
    (0 : Int) ≤ 1 ∧ (1 : Int) ≤ 3 ∧
    ∃ o1 o2 : List LED,
      SetHSVToAll [⟨0, F32.fin 0, F32.fin 1, F32.fin 1, 255, 0, 0⟩,
          ⟨1, F32.fin 0, F32.fin 1, F32.fin 1, 255, 0, 0⟩,
          ⟨2, F32.fin (1 / 4), F32.fin 0, F32.nan, 7, 8, 9⟩]
        (F32.fin (1 / 2)) (F32.fin (1 / 2)) (F32.fin (1 / 2)) 1 = some o1 ∧
      SetRGBToAll [⟨0, F32.fin 0, F32.fin 1, F32.fin 1, 255, 0, 0⟩,
          ⟨1, F32.fin 0, F32.fin 1, F32.fin 1, 255, 0, 0⟩,
          ⟨2, F32.fin (1 / 4), F32.fin 0, F32.nan, 7, 8, 9⟩] 10 20 30 1 = some o2 ∧
      o1[2]? = some ⟨2, F32.fin (1 / 4), F32.fin 0, F32.nan, 7, 8, 9⟩ ∧
      o2[2]? = some ⟨2, F32.fin (1 / 4), F32.fin 0, F32.nan, 7, 8, 9⟩ := by
  obtain ⟨o1, o2, h1, h2, _, _, hf, _⟩ := bulk_setters_frame
    [⟨0, F32.fin 0, F32.fin 1, F32.fin 1, 255, 0, 0⟩,
      ⟨1, F32.fin 0, F32.fin 1, F32.fin 1, 255, 0, 0⟩,
      ⟨2, F32.fin (1 / 4), F32.fin 0, F32.nan, 7, 8, 9⟩]
    (F32.fin (1 / 2)) (F32.fin (1 / 2)) (F32.fin (1 / 2)) 10 20 30 1 (by decide) (by decide)
  exact ⟨by decide, by decide, o1, o2, h1, h2, (hf 2 (by decide)).1, (hf 2 (by decide)).2⟩

/-! ## The strip is addressed by position -/

theorem UpdateLEDsRGB_run (strip : Adafruit_NeoPixel) (leds : List LED) (n : Int)
    (h : n.toNat = leds.length) :
    UpdateLEDsRGB strip leds n = some
      { strip with
        calls := strip.calls ++
          (leds.map fun led =>
            DriverCall.setPixelColor led.id (strip.Color led.red led.green led.blue)) ++
          [DriverCall.show_] } := by
  unfold UpdateLEDsRGB forLoop
  rw [h, forRange_read leds _ leds.length 0 strip (by omega)]
  rw [List.drop_zero, List.take_length,
    foldl_setPixelColor (fun C led => C led.red led.green led.blue) leds strip]
  rfl

theorem UpdateLEDsHSV_run (strip : Adafruit_NeoPixel) (leds : List LED) (n : Int)
    (h : n.toNat = leds.length) :
    UpdateLEDsHSV strip leds n = some
      { strip with
        calls := strip.calls ++
          (leds.map fun led =>
            DriverCall.setPixelColor led.id
              (strip.Color
                (F32.toUInt8 (F32.mul (hsv2rgb led.hue led.saturation led.value).1
                  (F32.lit 255)))
                (F32.toUInt8 (F32.mul (hsv2rgb led.hue led.saturation led.value).2.1
                  (F32.lit 255)))
                (F32.toUInt8 (F32.mul (hsv2rgb led.hue led.saturation led.value).2.2
                  (F32.lit 255))))) ++
          [DriverCall.show_] } := by
  unfold UpdateLEDsHSV forLoop
  rw [h, forRange_read leds _ leds.length 0 strip (by omega)]
  rw [List.drop_zero, List.take_length,
    foldl_setPixelColor (fun C led =>
      C (F32.toUInt8 (F32.mul (hsv2rgb led.hue led.saturation led.value).1 (F32.lit 255)))
        (F32.toUInt8 (F32.mul (hsv2rgb led.hue led.saturation led.value).2.1 (F32.lit 255)))
        (F32.toUInt8 (F32.mul (hsv2rgb led.hue led.saturation led.value).2.2 (F32.lit 255))))
      leds strip]
  rfl

/-- Position `k` of a trace `pre ++ mid ++ [last]`, counted from the end of `pre`. -/
theorem getElem?_trace (pre mid : List DriverCall) (last : DriverCall) (k : Nat) :
    (pre ++ mid ++ [last])[pre.length + k]? =
      if k < mid.length then mid[k]? else if k = mid.length then some last else none := by
  rw [List.append_assoc, List.getElem?_append_right (by omega)]
  have e : pre.length + k - pre.length = k := by omega
  rw [e]
  split
  · next hk => rw [List.getElem?_append_left hk]
  · next hk =>
    rw [List.getElem?_append_right (by omega)]
    split
    · next he => simp [he]
    · next he =>
      rw [List.getElem?_eq_none]
      simp
      omega

/-- After any sequence of operations on `InitLEDs(n)` the collection still has `n` pixels and
position `k` holds id `k mod 65536`. -/
theorem ids_after_ops {mem : Nat → LED} {n : Int} {ops : List Op} {leds out : List LED}
    (hinit : InitLEDs mem n = some leds) (hrun : runOps ops leds = some out) :
    out.length = n.toNat ∧
      ∀ k : Nat, k < n.toNat → ∃ led : LED, out[k]? = some led ∧ led.id.val = k % 65536 := by
  obtain ⟨leds', hinit', hlen, hcell⟩ := InitLEDs_cells mem n
  rw [hinit] at hinit'
  cases hinit'
  obtain ⟨hl, hids⟩ := runOps_ids ops leds out hrun
  refine ⟨hl.trans hlen, fun k hk => ?_⟩
  have hko : k < out.length := by omega
  refine ⟨out[k], List.getElem?_eq_getElem hko, ?_⟩
  have h1 : (out.map LED.id)[k]? = (leds.map LED.id)[k]? := by rw [hids]
  rw [List.getElem?_map, List.getElem?_map, hcell k hk, List.getElem?_eq_getElem hko] at h1
  have h2 := Option.some.inj h1
  rw [h2]

/-- C17: the strip is addressed by position. For every `n <= 65536` and every collection reached
from `InitLEDs(n)` by a sequence of the setter operations, `UpdateLEDsRGB` and `UpdateLEDsHSV`
called with count `n` return; each adds `n + 1` calls to those the driver had received; for
every `k < n` the `k`-th added call is a `setPixelColor` whose index argument is `k`, and the
call after them is `show`: each strip index `0 .. n-1` is written exactly once per update. -/
theorem strip_addressed_by_position (mem : Nat → LED) (n : Int) (ops : List Op)
    (leds out : List LED) (strip : Adafruit_NeoPixel)
    (hn : n ≤ 65536) (hinit : InitLEDs mem n = some leds) (hrun : runOps ops leds = some out) :
    ∃ s1 s2 : Adafruit_NeoPixel,
      UpdateLEDsRGB strip out n = some s1 ∧ UpdateLEDsHSV strip out n = some s2 ∧
      s1.calls.length = strip.calls.length + n.toNat + 1 ∧
      s2.calls.length = strip.calls.length + n.toNat + 1 ∧
      (∀ k : Nat, k < n.toNat →
        (∃ (i : uint16_t) (c : uint32_t),
          s1.calls[strip.calls.length + k]? = some (DriverCall.setPixelColor i c) ∧
            i.val = k) ∧
        (∃ (i : uint16_t) (c : uint32_t),
          s2.calls[strip.calls.length + k]? = some (DriverCall.setPixelColor i c) ∧
            i.val = k)) ∧
      s1.calls[strip.calls.length + n.toNat]? = some DriverCall.show_ ∧
      s2.calls[strip.calls.length + n.toNat]? = some DriverCall.show_ := by
  obtain ⟨hlen, hid⟩ := ids_after_ops hinit hrun
  refine ⟨_, _, UpdateLEDsRGB_run strip out n hlen.symm, UpdateLEDsHSV_run strip out n hlen.symm,
    by simp [hlen, Nat.add_assoc], by simp [hlen, Nat.add_assoc], fun k hk => ?_, ?_, ?_⟩
  · obtain ⟨led, hled, hval⟩ := hid k hk
    have hk' : k % 65536 = k := Nat.mod_eq_of_lt (by omega)
    constructor
    · refine ⟨led.id, strip.Color led.red led.green led.blue, ?_, hval.trans hk'⟩
      show (_ ++ _ ++ [_])[_]? = _
      rw [getElem?_trace, if_pos (by simp; omega), List.getElem?_map, hled]
      rfl
    · refine ⟨led.id, strip.Color
        (F32.toUInt8 (F32.mul (hsv2rgb led.hue led.saturation led.value).1 (F32.lit 255)))
        (F32.toUInt8 (F32.mul (hsv2rgb led.hue led.saturation led.value).2.1 (F32.lit 255)))
        (F32.toUInt8 (F32.mul (hsv2rgb led.hue led.saturation led.value).2.2 (F32.lit 255))),
        ?_, hval.trans hk'⟩
      show (_ ++ _ ++ [_])[_]? = _
      rw [getElem?_trace, if_pos (by simp; omega), List.getElem?_map, hled]
      rfl
  · show (_ ++ _ ++ [_])[_]? = _
    rw [getElem?_trace, if_neg (by simp; omega), if_pos (by simp; omega)]
  · show (_ ++ _ ++ [_])[_]? = _
    rw [getElem?_trace, if_neg (by simp; omega), if_pos (by simp; omega)]

/-- C17 on a run: after `InitLEDs(2)`, a hue write on pixel 0 and a bulk RGB write, the second
`setPixelColor` of `UpdateLEDsRGB` goes to strip index 1. -/
theorem strip_addressed_by_position_witness :
    (2 : Int) ≤ 65536 ∧
    InitLEDs (fun _ => ⟨9, F32.nan, F32.nan, F32.nan, 1, 2, 3⟩) 2 =
      some [⟨0, F32.fin 0, F32.fin 1, F32.fin 1, 255, 0, 0⟩,
        ⟨1, F32.fin 0, F32.fin 1, F32.fin 1, 255, 0, 0⟩] ∧
    runOps [Op.SetHue 0 (F32.fin (1 / 2)), Op.SetRGBToAll 4 5 6 2]
        [⟨0, F32.fin 0, F32.fin 1, F32.fin 1, 255, 0, 0⟩,
          ⟨1, F32.fin 0, F32.fin 1, F32.fin 1, 255, 0, 0⟩] =
      some [⟨0, F32.fin (1 / 2), F32.fin 1, F32.fin 1, 4, 5, 6⟩,
        ⟨1, F32.fin 0, F32.fin 1, F32.fin 1, 4, 5, 6⟩] ∧
    ∃ s1 : Adafruit_NeoPixel,
      UpdateLEDsRGB ⟨fun _ _ _ => 0, []⟩
        [⟨0, F32.fin (1 / 2), F32.fin 1, F32.fin 1, 4, 5, 6⟩,
          ⟨1, F32.fin 0, F32.fin 1, F32.fin 1, 4, 5, 6⟩] 2 = some s1 ∧
      ∃ (i : uint16_t) (c : uint32_t),
        s1.calls[1]? = some (DriverCall.setPixelColor i c) ∧ i.val = 1 := by
  have hinit : InitLEDs (fun _ => ⟨9, F32.nan, F32.nan, F32.nan, 1, 2, 3⟩) 2 =
      some [⟨0, F32.fin 0, F32.fin 1, F32.fin 1, 255, 0, 0⟩,
        ⟨1, F32.fin 0, F32.fin 1, F32.fin 1, 255, 0, 0⟩] := by decide!
  have hrun : runOps [Op.SetHue 0 (F32.fin (1 / 2)), Op.SetRGBToAll 4 5 6 2]
      [⟨0, F32.fin 0, F32.fin 1, F32.fin 1, 255, 0, 0⟩,
        ⟨1, F32.fin 0, F32.fin 1, F32.fin 1, 255, 0, 0⟩] =
      some [⟨0, F32.fin (1 / 2), F32.fin 1, F32.fin 1, 4, 5, 6⟩,
        ⟨1, F32.fin 0, F32.fin 1, F32.fin 1, 4, 5, 6⟩] := by decide!
  obtain ⟨s1, _, h1, _, _, _, hk, _⟩ := strip_addressed_by_position _ 2 _ _ _
    ⟨fun _ _ _ => 0, []⟩ (by decide) hinit hrun
  exact ⟨by decide, hinit, hrun, s1, h1, (hk 1 (by decide)).1⟩

/-! ## The default state -/

/-- Every pixel of a collection returned by `InitLEDs` carries the default colour state. -/
theorem InitLEDs_fields {mem : Nat → LED} {n : Int} {leds : List LED}
    (hinit : InitLEDs mem n = some leds) :
    leds.length = n.toNat ∧
      ∀ led ∈ leds, led.hue = F32.fin 0 ∧ led.saturation = F32.fin 1 ∧ led.value = F32.fin 1 ∧
        led.red = 255 ∧ led.green = 0 ∧ led.blue = 0 := by
  obtain ⟨leds', hinit', hlen, hcell⟩ := InitLEDs_cells mem n
  rw [hinit] at hinit'
  cases hinit'
  refine ⟨hlen, fun led hmem => ?_⟩
  obtain ⟨i, hi, rfl⟩ := List.getElem_of_mem hmem
  have h := hcell i (by omega)
  rw [List.getElem?_eq_getElem hi] at h
  rw [Option.some.inj h]
  exact ⟨rfl, rfl, rfl, rfl, rfl, rfl⟩

/-- The default HSV `(0, 1, 1)` goes through the conversion and the scaling by 255 to the 8-bit
triple `(255, 0, 0)`. -/
theorem default_hsv_channels :
    hsv2rgb (F32.fin 0) (F32.fin 1) (F32.fin 1) = (F32.fin 1, F32.fin 0, F32.fin 0) ∧
    F32.toUInt8 (F32.mul (hsv2rgb (F32.fin 0) (F32.fin 1) (F32.fin 1)).1 (F32.lit 255)) = 255 ∧
    F32.toUInt8 (F32.mul (hsv2rgb (F32.fin 0) (F32.fin 1) (F32.fin 1)).2.1 (F32.lit 255)) = 0 ∧
    F32.toUInt8 (F32.mul (hsv2rgb (F32.fin 0) (F32.fin 1) (F32.fin 1)).2.2 (F32.lit 255)) = 0 := by
  decide!

/-- C11: the default state is self-consistent. For every `n`, `InitLEDs(n)` returns a collection
in which the HSV-driven update converts every pixel's HSV, the default `(0, 1, 1)`, to the 8-bit
triple `(255, 0, 0)`, which is the pixel's stored `(red, green, blue)`; so `UpdateLEDsHSV` and
`UpdateLEDsRGB`, called on it with count `n`, both return and leave the driver with the same
sequence of calls. -/
theorem default_state_consistent (mem : Nat → LED) (n : Int) (strip : Adafruit_NeoPixel) :
    ∃ leds : List LED, InitLEDs mem n = some leds ∧
      (∀ led ∈ leds,
        (led.hue, led.saturation, led.value) = (F32.fin 0, F32.fin 1, F32.fin 1) ∧
        F32.toUInt8 (F32.mul (hsv2rgb led.hue led.saturation led.value).1 (F32.lit 255)) =
          led.red ∧
        F32.toUInt8 (F32.mul (hsv2rgb led.hue led.saturation led.value).2.1 (F32.lit 255)) =
          led.green ∧
        F32.toUInt8 (F32.mul (hsv2rgb led.hue led.saturation led.value).2.2 (F32.lit 255)) =
          led.blue ∧
        (led.red, led.green, led.blue) = (255, 0, 0)) ∧
      ∃ s : Adafruit_NeoPixel,
        UpdateLEDsHSV strip leds n = some s ∧ UpdateLEDsRGB strip leds n = some s := by
  obtain ⟨leds, hinit, _, _⟩ := InitLEDs_cells mem n
  obtain ⟨hlen, hfields⟩ := InitLEDs_fields hinit
  have hpix : ∀ led ∈ leds,
      (led.hue, led.saturation, led.value) = (F32.fin 0, F32.fin 1, F32.fin 1) ∧
      F32.toUInt8 (F32.mul (hsv2rgb led.hue led.saturation led.value).1 (F32.lit 255)) =
        led.red ∧
      F32.toUInt8 (F32.mul (hsv2rgb led.hue led.saturation led.value).2.1 (F32.lit 255)) =
        led.green ∧
      F32.toUInt8 (F32.mul (hsv2rgb led.hue led.saturation led.value).2.2 (F32.lit 255)) =
        led.blue ∧
      (led.red, led.green, led.blue) = (255, 0, 0) := by
    intro led hmem
    obtain ⟨hh, hs, hv, hr, hg, hb⟩ := hfields led hmem
    rw [hh, hs, hv, hr, hg, hb]
    exact ⟨rfl, default_hsv_channels.2.1, default_hsv_channels.2.2.1,
      default_hsv_channels.2.2.2, rfl⟩
  refine ⟨leds, hinit, hpix, _, UpdateLEDsHSV_run strip leds n hlen.symm, ?_⟩
  rw [UpdateLEDsRGB_run strip leds n hlen.symm]
  have hmap : (leds.map fun led =>
      DriverCall.setPixelColor led.id (strip.Color led.red led.green led.blue)) =
      leds.map fun led =>
        DriverCall.setPixelColor led.id
          (strip.Color
            (F32.toUInt8 (F32.mul (hsv2rgb led.hue led.saturation led.value).1 (F32.lit 255)))
            (F32.toUInt8 (F32.mul (hsv2rgb led.hue led.saturation led.value).2.1
              (F32.lit 255)))
            (F32.toUInt8 (F32.mul (hsv2rgb led.hue led.saturation led.value).2.2
              (F32.lit 255)))) := by
    apply List.map_congr_left
    intro led hmem
    obtain ⟨_, h1, h2, h3, _⟩ := hpix led hmem
    rw [h1, h2, h3]
  rw [hmap]

/-- C11 on `InitLEDs(2)`: both updates leave the list of calls
`setPixelColor(0, c), setPixelColor(1, c), show` with `c = Color(255, 0, 0)`. -/
theorem default_state_consistent_witness :
    ∃ leds : List LED,
      InitLEDs (fun _ => ⟨9, F32.nan, F32.nan, F32.nan, 1, 2, 3⟩) 2 = some leds ∧
      ∃ s : Adafruit_NeoPixel,
        UpdateLEDsHSV ⟨fun r g b => ⟨r.val * 65536 + g.val * 256 + b.val, by omega⟩, []⟩
          leds 2 = some s ∧
        UpdateLEDsRGB ⟨fun r g b => ⟨r.val * 65536 + g.val * 256 + b.val, by omega⟩, []⟩
          leds 2 = some s := by
  obtain ⟨leds, hinit, _, hs⟩ := default_state_consistent
    (fun _ => ⟨9, F32.nan, F32.nan, F32.nan, 1, 2, 3⟩) 2
    ⟨fun r g b => ⟨r.val * 65536 + g.val * 256 + b.val, by omega⟩, []⟩
  exact ⟨leds, hinit, hs⟩

/-! ## Rounding inside an interval with binary32 ends -/

namespace F32

theorem isBinary32_zero : IsBinary32 (fin 0) := by decide!

theorem isBinary32_one : IsBinary32 (fin 1) := by decide!

theorem isBinary32_two : IsBinary32 (fin 2) := by decide!

theorem isBinary32_six : IsBinary32 (fin 6) := by decide!

/-- A datum between two finite data is finite. -/
theorem fin_of_between {a b : ℚ} {x : F32} (h0 : fin a ≤ x) (h1 : x ≤ fin b) :
    ∃ r, x = fin r ∧ a ≤ r ∧ r ≤ b := by
  rcases fin_le_cases h0 with h | ⟨r, hr, har⟩
  · rw [h] at h1
    cases h1
  · rw [hr] at h1
    exact ⟨r, hr, har, of_decide_eq_true h1⟩

/-- An exact result between two binary32 values rounds to a finite value between them. -/
theorem rnd_between {q a b : ℚ} (ha : IsBinary32 (fin a)) (hb : IsBinary32 (fin b))
    (h0 : a ≤ q) (h1 : q ≤ b) : ∃ r, rnd q = fin r ∧ a ≤ r ∧ r ≤ b :=
  fin_of_between (le_rnd_of_le ha h0) (rnd_le_of_le hb h1)

end F32

/-! ## `UpdateColorWheelHSV` on normalized hues and steps -/

/-- One forward step of at most `1.0` keeps a hue of [0,1] in [0,1]. -/
theorem UpdateColorWheelHSV_unit (led : LED) (step : F32)
    (h0 : F32.fin 0 ≤ led.hue) (h1 : led.hue ≤ F32.fin 1)
    (s0 : F32.fin 0 ≤ step) (s1 : step ≤ F32.fin 1) :
    F32.fin 0 ≤ (UpdateColorWheelHSV led step).hue ∧
      (UpdateColorWheelHSV led step).hue ≤ F32.fin 1 := by
  obtain ⟨h, hh, hh0, hh1⟩ := F32.fin_of_between h0 h1
  obtain ⟨s, hs, hs0, hs1⟩ := F32.fin_of_between s0 s1
  rw [UpdateColorWheelHSV_hue_eq, hh, hs]
  obtain ⟨r, hr, hr0, hr2⟩ := F32.rnd_between (q := h + s) F32.isBinary32_zero
    F32.isBinary32_two (by linarith) (by linarith)
  have hadd : F32.add (F32.fin h) (F32.fin s) = F32.fin r := hr
  rw [hadd]
  by_cases hlt : F32.fin 1 < F32.fin r
  · rw [if_pos hlt]
    have hr1 : (1 : ℚ) < r := of_decide_eq_true hlt
    obtain ⟨d, hd, hd0, hd1⟩ := F32.rnd_between (q := r + -1) F32.isBinary32_zero
      F32.isBinary32_one (by linarith) (by linarith)
    have hsub : F32.sub (F32.fin r) (F32.fin 1) = F32.fin d := hd
    rw [hsub]
    exact ⟨decide_eq_true hd0, decide_eq_true hd1⟩
  · rw [if_neg hlt]
    have hr1 : ¬ (1 : ℚ) < r := fun h => hlt (decide_eq_true h)
    exact ⟨decide_eq_true hr0, decide_eq_true (not_lt.1 hr1)⟩

/-- Rewriting one cell with a function that keeps `P` keeps `P` on every cell. -/
theorem modifyAt_forall {P : LED → Prop} {leds out : List LED} {i : Nat} {f : LED → LED}
    (h : modifyAt leds i f = some out) (hf : ∀ led, P led → P (f led))
    (hall : ∀ led ∈ leds, P led) : ∀ led ∈ out, P led := by
  unfold modifyAt at h
  split at h
  · cases h
  · next led0 hled0 =>
    cases h
    intro led hmem
    rcases List.mem_or_eq_of_mem_set hmem with hm | he
    · exact hall led hm
    · rw [he]
      have hi := lt_length_of_getElem_some hled0
      rw [List.getElem?_eq_getElem hi] at hled0
      rw [← Option.some.inj hled0]
      exact hf _ (hall _ (List.getElem_mem hi))

/-- A sequence of hue steps, each of a size in [0,1], keeps every hue of the collection in
[0,1] when they all start there. -/
theorem runOps_steps_unit (calls : List (Nat × F32))
    (hcalls : ∀ c ∈ calls, F32.fin 0 ≤ c.2 ∧ c.2 ≤ F32.fin 1) :
    ∀ (leds out : List LED),
      runOps (calls.map fun c => Op.UpdateColorWheelHSV c.1 c.2) leds = some out →
      (∀ led ∈ leds, F32.fin 0 ≤ led.hue ∧ led.hue ≤ F32.fin 1) →
      ∀ led ∈ out, F32.fin 0 ≤ led.hue ∧ led.hue ≤ F32.fin 1 := by
  induction calls with
  | nil =>
    intro leds out h hall
    cases h
    exact hall
  | cons c calls ih =>
    intro leds out h hall
    simp only [List.map_cons, runOps] at h
    cases hop : (Op.UpdateColorWheelHSV c.1 c.2).run leds with
    | none => simp [hop] at h
    | some mid =>
      rw [hop] at h
      have hc := hcalls c (List.mem_cons_self c calls)
      have hmid : ∀ led ∈ mid, F32.fin 0 ≤ led.hue ∧ led.hue ≤ F32.fin 1 :=
        modifyAt_forall hop
          (fun led hled => UpdateColorWheelHSV_unit led c.2 hled.1 hled.2 hc.1 hc.2) hall
      exact ih (fun c' hc' => hcalls c' (List.mem_cons_of_mem c hc')) mid out h hmid

/-- C15: `UpdateColorWheelHSV` keeps a normalized hue normalized for normalized forward steps.
For every pixel with hue in [0,1] and every step in [0,1] the resulting hue is in [0,1]; hence
after any sequence of `UpdateColorWheelHSV` calls, each on some pixel `&leds[i]` with a step in
[0,1], starting from `InitLEDs(n)`, every hue of the collection is in [0,1]. -/
theorem UpdateColorWheelHSV_normalized :
    (∀ (led : LED) (step : F32),
      F32.fin 0 ≤ led.hue → led.hue ≤ F32.fin 1 → F32.fin 0 ≤ step → step ≤ F32.fin 1 →
      F32.fin 0 ≤ (UpdateColorWheelHSV led step).hue ∧
        (UpdateColorWheelHSV led step).hue ≤ F32.fin 1) ∧
    (∀ (mem : Nat → LED) (n : Int) (calls : List (Nat × F32)) (leds out : List LED),
      InitLEDs mem n = some leds →
      (∀ c ∈ calls, F32.fin 0 ≤ c.2 ∧ c.2 ≤ F32.fin 1) →
      runOps (calls.map fun c => Op.UpdateColorWheelHSV c.1 c.2) leds = some out →
      ∀ led ∈ out, F32.fin 0 ≤ led.hue ∧ led.hue ≤ F32.fin 1) := by
  refine ⟨UpdateColorWheelHSV_unit, fun mem n calls leds out hinit hcalls hrun => ?_⟩
  refine runOps_steps_unit calls hcalls leds out hrun fun led hmem => ?_
  rw [((InitLEDs_fields hinit).2 led hmem).1]
  exact ⟨by decide!, by decide!⟩

/-- C15 on a wrap: hue `0.75` stepped by `0.5` lands on `0.25`, and on `InitLEDs(2)` three steps
of `0.5` on pixel 1 leave both hues in [0,1]. -/
theorem UpdateColorWheelHSV_normalized_witness :
    (F32.fin 0 ≤ (UpdateColorWheelHSV ⟨0, F32.fin (3 / 4), F32.fin 1, F32.fin 1, 255, 0, 0⟩
        (F32.fin (1 / 2))).hue ∧
      (UpdateColorWheelHSV ⟨0, F32.fin (3 / 4), F32.fin 1, F32.fin 1, 255, 0, 0⟩
        (F32.fin (1 / 2))).hue ≤ F32.fin 1) ∧
    ∃ leds out : List LED,
      InitLEDs (fun _ => ⟨9, F32.nan, F32.nan, F32.nan, 1, 2, 3⟩) 2 = some leds ∧
      runOps ([(1, F32.fin (1 / 2)), (1, F32.fin (1 / 2)), (1, F32.fin (1 / 2))].map
        fun c => Op.UpdateColorWheelHSV c.1 c.2) leds = some out ∧
      ∀ led ∈ out, F32.fin 0 ≤ led.hue ∧ led.hue ≤ F32.fin 1 := by
  have hinit : InitLEDs (fun _ => ⟨9, F32.nan, F32.nan, F32.nan, 1, 2, 3⟩) 2 =
      some [⟨0, F32.fin 0, F32.fin 1, F32.fin 1, 255, 0, 0⟩,
        ⟨1, F32.fin 0, F32.fin 1, F32.fin 1, 255, 0, 0⟩] := by decide!
  have hrun : runOps ([(1, F32.fin (1 / 2)), (1, F32.fin (1 / 2)), (1, F32.fin (1 / 2))].map
      fun c => Op.UpdateColorWheelHSV c.1 c.2)
      [⟨0, F32.fin 0, F32.fin 1, F32.fin 1, 255, 0, 0⟩,
        ⟨1, F32.fin 0, F32.fin 1, F32.fin 1, 255, 0, 0⟩] =
      some [⟨0, F32.fin 0, F32.fin 1, F32.fin 1, 255, 0, 0⟩,
        ⟨1, F32.fin (1 / 2), F32.fin 1, F32.fin 1, 255, 0, 0⟩] := by decide!
  refine ⟨UpdateColorWheelHSV_normalized.1 _ _ (by decide!) (by decide!) (by decide!)
    (by decide!), _, _, hinit, hrun, ?_⟩
  exact UpdateColorWheelHSV_normalized.2 _ 2 _ _ _ hinit (by decide!) hrun

/-! ## Range of the colour model conversion -/

/-- With a saturation other than zero every channel of the conversion is one of `value`, `p`,
`q`, `t`, and one of the three channels is `value` itself. -/
theorem hsv2rgb_channels (P : F32 → Prop) (h s v : F32) (hs : F32.eq s (F32.lit 0) = false)
    (hv : P v) (hp : P (F32.mul v (F32.sub (F32.lit 1) s)))
    (hq : P (F32.mul v (F32.sub (F32.lit 1)
      (F32.mul s (F32.sub (F32.mul h (F32.lit 6)) (F32.floor (F32.mul h (F32.lit 6))))))))
    (ht : P (F32.mul v (F32.sub (F32.lit 1)
      (F32.mul s (F32.sub (F32.lit 1)
        (F32.sub (F32.mul h (F32.lit 6)) (F32.floor (F32.mul h (F32.lit 6))))))))) :
    P (hsv2rgb h s v).1 ∧ P (hsv2rgb h s v).2.1 ∧ P (hsv2rgb h s v).2.2 ∧
      ((hsv2rgb h s v).1 = v ∨ (hsv2rgb h s v).2.1 = v ∨ (hsv2rgb h s v).2.2 = v) := by
  unfold hsv2rgb
  rw [hs]
  simp only [Bool.false_eq_true, if_false]
  split
  · exact ⟨hv, ht, hp, Or.inl rfl⟩
  · exact ⟨hq, hv, hp, Or.inr (Or.inl rfl)⟩
  · exact ⟨hp, hv, ht, Or.inr (Or.inl rfl)⟩
  · exact ⟨hp, hq, hv, Or.inr (Or.inr rfl)⟩
  · exact ⟨ht, hp, hv, Or.inr (Or.inr rfl)⟩
  · exact ⟨hv, hp, hq, Or.inl rfl⟩

/-- `1 - x` stays in [0,1] for `x` in [0,1]. -/
theorem one_sub_unit {x : ℚ} (h0 : 0 ≤ x) (h1 : x ≤ 1) :
    ∃ y, F32.sub (F32.lit 1) (F32.fin x) = F32.fin y ∧ 0 ≤ y ∧ y ≤ 1 := by
  rw [lit_one]
  exact F32.rnd_between (q := 1 + -x) F32.isBinary32_zero F32.isBinary32_one
    (by linarith) (by linarith)

/-- A product of two numbers of [0,1] stays in [0,1]. -/
theorem mul_unit {x y : ℚ} (hx0 : 0 ≤ x) (hx1 : x ≤ 1) (hy0 : 0 ≤ y) (hy1 : y ≤ 1) :
    ∃ z, F32.mul (F32.fin x) (F32.fin y) = F32.fin z ∧ 0 ≤ z ∧ z ≤ 1 :=
  F32.rnd_between (q := x * y) F32.isBinary32_zero F32.isBinary32_one
    (mul_nonneg hx0 hy0) (by nlinarith)

/-- A binary32 value `v >= 0` times a number of [0,1] stays in [0,v]. -/
theorem mul_value_unit {v y : ℚ} (hv : F32.IsBinary32 (F32.fin v)) (hv0 : 0 ≤ v)
    (hy0 : 0 ≤ y) (hy1 : y ≤ 1) :
    F32.fin 0 ≤ F32.mul (F32.fin v) (F32.fin y) ∧
      F32.mul (F32.fin v) (F32.fin y) ≤ F32.fin v :=
  ⟨F32.le_rnd_of_le F32.isBinary32_zero (mul_nonneg hv0 hy0),
    F32.rnd_le_of_le hv (by nlinarith)⟩

/-- For a hue of [0,1] the fractional part `hue*6 − floor(hue*6)` is a number of [0,1]. -/
theorem fractional_unit {h : ℚ} (h0 : 0 ≤ h) (h1 : h ≤ 1) :
    ∃ f, F32.sub (F32.mul (F32.fin h) (F32.lit 6))
        (F32.floor (F32.mul (F32.fin h) (F32.lit 6))) = F32.fin f ∧ 0 ≤ f ∧ f ≤ 1 := by
  rw [lit_six]
  obtain ⟨a, ha, _, _⟩ := F32.rnd_between (q := h * 6) F32.isBinary32_zero F32.isBinary32_six
    (by linarith) (by linarith)
  have hmul : F32.mul (F32.fin h) (F32.fin 6) = F32.fin a := ha
  rw [hmul]
  exact F32.rnd_between (q := a + -((⌊a⌋ : ℤ) : ℚ)) F32.isBinary32_zero F32.isBinary32_one
    (by linarith [Int.floor_le a]) (by linarith [Int.lt_floor_add_one a])

/-- C13: for every hue, saturation and value in [0,1] with saturation above zero (the value
being a binary32 value, as every C `float` is), each of the three output channels of the
conversion lies in [0, value], and at least one channel equals the value. -/
theorem hsv2rgb_range (h s v : F32) (hv : F32.IsBinary32 v)
    (h0 : F32.fin 0 ≤ h) (h1 : h ≤ F32.fin 1) (s0 : F32.fin 0 < s) (s1 : s ≤ F32.fin 1)
    (v0 : F32.fin 0 ≤ v) (v1 : v ≤ F32.fin 1) :
    (F32.fin 0 ≤ (hsv2rgb h s v).1 ∧ (hsv2rgb h s v).1 ≤ v) ∧
    (F32.fin 0 ≤ (hsv2rgb h s v).2.1 ∧ (hsv2rgb h s v).2.1 ≤ v) ∧
    (F32.fin 0 ≤ (hsv2rgb h s v).2.2 ∧ (hsv2rgb h s v).2.2 ≤ v) ∧
    ((hsv2rgb h s v).1 = v ∨ (hsv2rgb h s v).2.1 = v ∨ (hsv2rgb h s v).2.2 = v) := by
  obtain ⟨h', rfl, hh0, hh1⟩ := F32.fin_of_between h0 h1
  obtain ⟨v', rfl, hv0, _⟩ := F32.fin_of_between v0 v1
  obtain ⟨s', rfl, hs1⟩ : ∃ s', s = F32.fin s' ∧ s' ≤ 1 := by
    rcases F32.le_fin_cases s1 with hs | ⟨r, hr, hr1⟩
    · rw [hs] at s0
      cases s0
    · exact ⟨r, hr, hr1⟩
  have hs0 : 0 < s' := of_decide_eq_true s0
  have hne : F32.eq (F32.fin s') (F32.lit 0) = false := by
    rw [lit_zero]
    exact decide_eq_false (ne_of_gt hs0)
  obtain ⟨f, hf, hf0, hf1⟩ := fractional_unit hh0 hh1
  obtain ⟨x1, hx1, hx10, hx11⟩ := one_sub_unit hs0.le hs1
  obtain ⟨sf, hsf, hsf0, hsf1⟩ := mul_unit hs0.le hs1 hf0 hf1
  obtain ⟨x2, hx2, hx20, hx21⟩ := one_sub_unit hsf0 hsf1
  obtain ⟨g, hg, hg0, hg1⟩ := one_sub_unit hf0 hf1
  obtain ⟨sg, hsg, hsg0, hsg1⟩ := mul_unit hs0.le hs1 hg0 hg1
  obtain ⟨x3, hx3, hx30, hx31⟩ := one_sub_unit hsg0 hsg1
  refine hsv2rgb_channels (fun c => F32.fin 0 ≤ c ∧ c ≤ F32.fin v') (F32.fin h') (F32.fin s')
    (F32.fin v') hne ⟨decide_eq_true hv0, decide_eq_true le_rfl⟩ ?_ ?_ ?_
  · rw [hx1]
    exact mul_value_unit hv hv0 hx10 hx11
  · rw [hf, hsf, hx2]
    exact mul_value_unit hv hv0 hx20 hx21
  · rw [hf, hg, hsg, hx3]
    exact mul_value_unit hv hv0 hx30 hx31

/-- C13 at hue, saturation and value `0.5`: the channels are `(0.25, 0.5, 0.5)`. -/
theorem hsv2rgb_range_witness :
    hsv2rgb (F32.fin (1 / 2)) (F32.fin (1 / 2)) (F32.fin (1 / 2)) =
      (F32.fin (1 / 4), F32.fin (1 / 2), F32.fin (1 / 2)) ∧
    (F32.fin 0 ≤ (hsv2rgb (F32.fin (1 / 2)) (F32.fin (1 / 2)) (F32.fin (1 / 2))).1 ∧
      (hsv2rgb (F32.fin (1 / 2)) (F32.fin (1 / 2)) (F32.fin (1 / 2))).1 ≤ F32.fin (1 / 2)) ∧
    (F32.fin 0 ≤ (hsv2rgb (F32.fin (1 / 2)) (F32.fin (1 / 2)) (F32.fin (1 / 2))).2.1 ∧
      (hsv2rgb (F32.fin (1 / 2)) (F32.fin (1 / 2)) (F32.fin (1 / 2))).2.1 ≤ F32.fin (1 / 2)) ∧
    (F32.fin 0 ≤ (hsv2rgb (F32.fin (1 / 2)) (F32.fin (1 / 2)) (F32.fin (1 / 2))).2.2 ∧
      (hsv2rgb (F32.fin (1 / 2)) (F32.fin (1 / 2)) (F32.fin (1 / 2))).2.2 ≤ F32.fin (1 / 2)) ∧
    ((hsv2rgb (F32.fin (1 / 2)) (F32.fin (1 / 2)) (F32.fin (1 / 2))).1 = F32.fin (1 / 2) ∨
      (hsv2rgb (F32.fin (1 / 2)) (F32.fin (1 / 2)) (F32.fin (1 / 2))).2.1 = F32.fin (1 / 2) ∨
      (hsv2rgb (F32.fin (1 / 2)) (F32.fin (1 / 2)) (F32.fin (1 / 2))).2.2 = F32.fin (1 / 2)) :=
  ⟨by decide!, hsv2rgb_range (F32.fin (1 / 2)) (F32.fin (1 / 2)) (F32.fin (1 / 2))
    (by decide!) (by decide!) (by decide!) (by decide!) (by decide!) (by decide!) (by decide!)⟩

/-! ## Rounding just above `2.0` -/

namespace F32

/-- Past the midpoint between two integers, rounding goes to the upper one or beyond. -/
theorem succ_le_rne (x : ℚ) (n : ℤ) (h : (n : ℚ) + 1 / 2 < x) : n + 1 ≤ rne x := by
  have hf : n ≤ ⌊x⌋ := Int.le_floor.2 (by linarith)
  rcases lt_or_eq_of_le hf with hlt | heq
  · have := floor_le_rne x
    omega
  · have h1 : ¬ x - (⌊x⌋ : ℚ) < 1 / 2 := by
      rw [← heq]
      linarith
    have h2 : 1 / 2 < x - (⌊x⌋ : ℚ) := by
      rw [← heq]
      linarith
    unfold rne
    rw [if_neg h1, if_pos h2]
    omega

/-- The exponent of a number of the binade `[2 ^ k, 2 ^ (k + 1))`. -/
theorem expo_eq (a : ℚ) (k : ℤ) (hk : -126 ≤ k) (hk' : k ≤ 127) (h0 : (2 : ℚ) ^ k ≤ a)
    (h1 : a < (2 : ℚ) ^ (k + 1)) : expo a = k := by
  have hle : k ≤ expo a := (pow_expo_le a k hk hk' h0).1
  rcases eq_or_lt_of_le hle with he | hlt
  · exact he.symm
  · exfalso
    have h2 : (2 : ℚ) ^ expo a ≤ a := pow_expo_le_self a (by omega)
    have h3 : (2 : ℚ) ^ (k + 1) ≤ (2 : ℚ) ^ expo a :=
      zpow_le_zpow_right₀ (by norm_num) (by omega)
    linarith

/-- An exact result above the midpoint `2 + 2^-24 * 2` between `2.0` and the next binary32 value
rounds to that next value, `8388609/4194304`, or higher. -/
theorem next_two_le_rnd (q : ℚ) (h : 2 + 1 / 2 ^ 23 < q) :
    fin (8388609 / 4194304) ≤ rnd q := by
  rcases lt_or_le q 4 with h4 | h4
  · have hq0 : 0 < q := by linarith
    have he : expo |q| = 1 := by
      rw [abs_of_pos hq0]
      exact expo_eq q 1 (by norm_num) (by norm_num) (by norm_num; linarith) (by norm_num; linarith)
    have hu : ulp q = 1 / 2 ^ 22 := by
      rw [ulp, he]
      norm_num
    have hx : ((2 ^ 23 : ℤ) : ℚ) + 1 / 2 < q / ulp q := by
      rw [hu]
      push_cast
      rw [lt_div_iff₀ (by norm_num)]
      linarith
    have hr : ((2 ^ 23 + 1 : ℤ) : ℚ) ≤ (rne (q / ulp q) : ℚ) := by
      exact_mod_cast succ_le_rne _ _ hx
    have hn : (8388609 / 4194304 : ℚ) ≤ nearest q := by
      unfold nearest
      rw [hu] at hr ⊢
      push_cast at hr
      have : (8388609 / 4194304 : ℚ) = 8388609 * (1 / 2 ^ 22) := by norm_num
      rw [this]
      exact mul_le_mul_of_nonneg_right hr (by norm_num)
    show le (fin (8388609 / 4194304)) (rnd q) = true
    unfold rnd
    split
    · simp [le, not_lt.2 hq0.le]
    · exact decide_eq_true hn
  · rcases pow_le_rnd q 2 (by norm_num) (by norm_num) (by norm_num; linarith) with
      hi | ⟨r, hr, hr4⟩
    · rw [hi]
      rfl
    · rw [hr]
      exact decide_eq_true (by norm_num at hr4; linarith)

/-- An exact result from `2.0` up to the midpoint above it rounds to `2.0`. -/
theorem rnd_eq_two (q : ℚ) (h0 : 2 ≤ q) (h1 : q ≤ 2 + 1 / 2 ^ 23) : rnd q = fin 2 := by
  have hlo : fin 2 ≤ rnd q := le_rnd_of_le isBinary32_two h0
  have hmid : rnd (2 + 1 / 2 ^ 23) = fin 2 := by decide!
  have hhi : rnd q ≤ fin 2 := by
    have := rnd_mono h1
    rwa [hmid] at this
  obtain ⟨r, hr, hr0, hr1⟩ := fin_of_between hlo hhi
  rw [hr, le_antisymm hr1 hr0]

theorem lt_of_fin_le {a b : ℚ} {x : F32} (hab : a < b) (h : fin b ≤ x) : fin a < x := by
  rcases fin_le_cases h with hx | ⟨r, hx, hr⟩
  · rw [hx]
    rfl
  · rw [hx]
    exact decide_eq_true (lt_of_lt_of_le hab hr)

theorem ne_fin_of_fin_le {a b : ℚ} {x : F32} (hab : a < b) (h : fin b ≤ x) : x ≠ fin a := by
  rcases fin_le_cases h with hx | ⟨r, hx, hr⟩
  · rw [hx]
    exact fun e => nomatch e
  · rw [hx]
    intro e
    have : r = a := by
      cases e
      rfl
    linarith

theorem le_of_fin_le {a b : ℚ} {x : F32} (hab : a ≤ b) (h : fin b ≤ x) : fin a ≤ x := by
  rcases fin_le_cases h with hx | ⟨r, hx, hr⟩
  · rw [hx]
    rfl
  · rw [hx]
    exact decide_eq_true (hab.trans hr)

theorem isBinary32_next_one : IsBinary32 (fin (4194305 / 4194304)) := by decide!

end F32

/-! ## `UpdateColorWheelHSV` with a step of `2.0` or more -/

/-- With a hue of [0,1] and a step of at least `2.0`, either the exact sum is at most
`2 + 2^-23`, the binary32 sum is `2.0` and the new hue is `1.0`, or the exact sum is larger, the
binary32 sum is at least the next value above `2.0` and the new hue at least the next value
above `1.0`. -/
theorem large_step_cases (led : LED) (step : F32)
    (h0 : F32.fin 0 ≤ led.hue) (h1 : led.hue ≤ F32.fin 1) (hs : F32.fin 2 ≤ step) :
    (F32.add led.hue step = F32.fin 2 ∧ (UpdateColorWheelHSV led step).hue = F32.fin 1 ∧
      ∃ h s : ℚ, led.hue = F32.fin h ∧ step = F32.fin s ∧ 0 ≤ h ∧ 2 ≤ s ∧
        h + s ≤ 2 + 1 / 2 ^ 23) ∨
    (F32.fin (8388609 / 4194304) ≤ F32.add led.hue step ∧
      F32.fin (4194305 / 4194304) ≤ (UpdateColorWheelHSV led step).hue ∧
      ∀ h s : ℚ, led.hue = F32.fin h → step = F32.fin s → 2 + 1 / 2 ^ 23 < h + s) := by
  obtain ⟨h, hh, hh0, _⟩ := F32.fin_of_between h0 h1
  rw [UpdateColorWheelHSV_hue_eq, hh]
  have hbig : ∀ x : F32, F32.fin (8388609 / 4194304) ≤ x →
      F32.fin (4194305 / 4194304) ≤
        (if F32.fin 1 < x then F32.sub x (F32.fin 1) else x) := by
    intro x hx
    rcases F32.fin_le_cases hx with hx | ⟨r, hx, hr⟩
    · rw [hx]
      decide!
    · rw [hx]
      have hlt : F32.fin 1 < F32.fin r :=
        decide_eq_true (by norm_num at hr ⊢; linarith : (1 : ℚ) < r)
      rw [if_pos hlt]
      exact F32.le_rnd_of_le (q := r + -1) F32.isBinary32_next_one
        (by norm_num at hr ⊢; linarith)
  rcases F32.fin_le_cases hs with hst | ⟨s, hst, hs2⟩
  · right
    rw [hst]
    have hadd : F32.add (F32.fin h) (F32.inf false) = F32.inf false := rfl
    rw [hadd]
    exact ⟨by decide!, by decide!, fun _ _ _ e => nomatch e⟩
  · rw [hst]
    have hadd : F32.add (F32.fin h) (F32.fin s) = F32.rnd (h + s) := rfl
    rw [hadd]
    rcases le_or_lt (h + s) (2 + 1 / 2 ^ 23) with hq | hq
    · left
      rw [F32.rnd_eq_two (h + s) (by linarith) hq]
      exact ⟨rfl, by decide!, h, s, rfl, rfl, hh0, hs2, hq⟩
    · right
      have hn := F32.next_two_le_rnd (h + s) hq
      refine ⟨hn, hbig _ hn, fun h' s' eh es => ?_⟩
      cases eh
      cases es
      exact hq

/-- C6, amended: for every pixel whose hue is in [0,1] and every step `>= 2.0`, the hue after
`UpdateColorWheelHSV` is still at least `1.0`, and it is strictly greater than `1.0` exactly
when the binary32 sum `hue + step` is above `2.0`, that is when the exact sum is above
`2 + 2^-23`; so it is strictly greater than `1.0` for every step from `8388609/4194304` (the
binary32 value next above `2.0`) on. The hue is exactly `1.0` only when the sum rounds to `2.0`,
which for a binary32 step needs step `2.0` and hue at most `2^-23`. -/
theorem UpdateColorWheelHSV_large_step (led : LED) (step : F32)
    (h0 : F32.fin 0 ≤ led.hue) (h1 : led.hue ≤ F32.fin 1) (hs : F32.fin 2 ≤ step) :
    F32.fin 1 ≤ (UpdateColorWheelHSV led step).hue ∧
    (F32.fin 1 < (UpdateColorWheelHSV led step).hue ↔ F32.fin 2 < F32.add led.hue step) ∧
    ((UpdateColorWheelHSV led step).hue = F32.fin 1 ↔ F32.add led.hue step = F32.fin 2) ∧
    (F32.fin (8388609 / 4194304) ≤ step → F32.fin 1 < (UpdateColorWheelHSV led step).hue) ∧
    (∀ h s : ℚ, led.hue = F32.fin h → step = F32.fin s →
      (F32.fin 1 < (UpdateColorWheelHSV led step).hue ↔ 2 + 1 / 2 ^ 23 < h + s)) ∧
    (F32.IsBinary32 step → (UpdateColorWheelHSV led step).hue = F32.fin 1 →
      step = F32.fin 2 ∧ led.hue ≤ F32.fin (1 / 2 ^ 23)) := by
  rcases large_step_cases led step h0 h1 hs with
    ⟨hadd, hhue, h, s, hh, hst, hh0, hs2, hq⟩ | ⟨hadd, hhue, hq⟩
  · rw [hadd, hhue]
    refine ⟨by decide!, ⟨fun hc => absurd hc (by decide!), fun hc => absurd hc (by decide!)⟩,
      ⟨fun _ => rfl, fun _ => rfl⟩, fun hn => ?_, fun h' s' eh es => ?_, fun hb _ => ?_⟩
    · exfalso
      rw [hst] at hn
      have hn' : (8388609 / 4194304 : ℚ) ≤ s := of_decide_eq_true hn
      norm_num at hn' hq
      linarith
    · rw [hh] at eh
      rw [hst] at es
      cases eh
      cases es
      exact ⟨fun hc => absurd hc (by decide!), fun hc => absurd hc (not_lt.2 hq)⟩
    · rw [hst] at hb
      have hfix : F32.rnd s = F32.fin s := hb
      have hs_eq : s = 2 := by
        rcases le_or_lt s (2 + 1 / 2 ^ 23) with hle | hlt
        · have h2 := F32.rnd_eq_two s hs2 hle
          rw [hfix] at h2
          cases h2
          rfl
        · exfalso
          have hn := F32.next_two_le_rnd s hlt
          rw [hfix] at hn
          have hn' : (8388609 / 4194304 : ℚ) ≤ s := of_decide_eq_true hn
          norm_num at hn' hq
          linarith
      rw [hst, hh, hs_eq]
      exact ⟨rfl, decide_eq_true (by rw [hs_eq] at hq; linarith)⟩
  · have hlt : F32.fin 1 < (UpdateColorWheelHSV led step).hue :=
      F32.lt_of_fin_le (by norm_num) hhue
    refine ⟨F32.le_of_fin_le (by norm_num) hhue,
      ⟨fun _ => F32.lt_of_fin_le (by norm_num) hadd, fun _ => hlt⟩,
      ⟨fun hc => absurd hc (F32.ne_fin_of_fin_le (by norm_num) hhue),
        fun hc => absurd hc (F32.ne_fin_of_fin_le (by norm_num) hadd)⟩,
      fun _ => hlt, fun h s eh es => ⟨fun _ => hq h s eh es, fun _ => hlt⟩,
      fun _ hc => absurd hc (F32.ne_fin_of_fin_le (by norm_num) hhue)⟩

/-- C6 amended, at hue `0.0`: with the step next above `2.0` the new hue is strictly above
`1.0`; with step `2.0` it is at least `1.0`, and being exactly `1.0` there it confirms step
`2.0` and a hue of at most `2^-23`. -/
theorem UpdateColorWheelHSV_large_step_witness :
    (F32.fin 0 ≤ F32.fin 0 ∧ F32.fin 0 ≤ F32.fin 1 ∧ F32.fin 2 ≤ F32.fin (8388609 / 4194304) ∧
      F32.fin 1 < (UpdateColorWheelHSV ⟨0, F32.fin 0, F32.fin 1, F32.fin 1, 255, 0, 0⟩
        (F32.fin (8388609 / 4194304))).hue) ∧
    (F32.fin 2 ≤ F32.fin 2 ∧
      F32.fin 1 ≤ (UpdateColorWheelHSV ⟨0, F32.fin 0, F32.fin 1, F32.fin 1, 255, 0, 0⟩
        (F32.fin 2)).hue ∧
      F32.fin 2 = F32.fin 2 ∧ F32.fin 0 ≤ F32.fin (1 / 2 ^ 23)) :=
  ⟨⟨by decide!, by decide!, by decide!,
      (UpdateColorWheelHSV_large_step ⟨0, F32.fin 0, F32.fin 1, F32.fin 1, 255, 0, 0⟩
        (F32.fin (8388609 / 4194304)) (by decide!) (by decide!) (by decide!)).2.2.2.1
        (by decide!)⟩,
    ⟨by decide!,
      (UpdateColorWheelHSV_large_step ⟨0, F32.fin 0, F32.fin 1, F32.fin 1, 255, 0, 0⟩
        (F32.fin 2) (by decide!) (by decide!) (by decide!)).1,
      (UpdateColorWheelHSV_large_step ⟨0, F32.fin 0, F32.fin 1, F32.fin 1, 255, 0, 0⟩
        (F32.fin 2) (by decide!) (by decide!) (by decide!)).2.2.2.2.2 (by decide!)
        (by decide!)⟩⟩

end TreeLight
